import Mathlib

/-!
# Directory-cache simulator (`assignment.c`): write path of one processor node

Shallow embedding of `src/assignment.c`.

* `byte` (`unsigned char`) values are natural numbers; a conversion to `byte`
  is written `% 256` where the source performs one.
* A C array `T a[N]` is a function `Fin N → T`.  An access whose index is a
  run-time `int` goes through a checked slot function and is `none`
  (undefined behaviour) outside `0 .. N-1`.
* `printf` output is a list of `Output` records, one per call.
-/

set_option autoImplicit false

namespace Assignment

/-! ## Constants and data model (lines 7-42) -/

abbrev NUM_PROCS : Nat := 4
abbrev CACHE_SIZE : Nat := 4
abbrev MEM_SIZE : Nat := 16
abbrev MAX_INSTR_NUM : Nat := 32

/-- Line 13: `typedef unsigned char byte;`. -/
abbrev byte := Nat

/-- Line 15: `typedef enum { MODIFIED, EXCLUSIVE, SHARED, INVALID } cacheLineState;`. -/
inductive cacheLineState where
  | MODIFIED
  | EXCLUSIVE
  | SHARED
  | INVALID
  deriving DecidableEq, Repr

/-- Line 17: `typedef enum { EM, S, U } directoryEntryState;`. -/
inductive directoryEntryState where
  | EM
  | S
  | U
  deriving DecidableEq, Repr

/-- Lines 19-23: `struct instruction`; `type` is `'R'` or `'W'`. -/
structure instruction where
  type : byte
  address : byte
  value : byte
  deriving DecidableEq, Repr

/-- Lines 25-29: `struct cacheLine`. -/
structure cacheLine where
  address : byte
  value : byte
  state : cacheLineState
  deriving DecidableEq, Repr

/-- Lines 31-34: `struct directoryEntry`. -/
structure directoryEntry where
  bitVector : byte
  state : directoryEntryState
  deriving DecidableEq, Repr

/-- Lines 36-42: `struct processorNode`. -/
structure processorNode where
  cache : Fin CACHE_SIZE → cacheLine
  memory : Fin MEM_SIZE → byte
  directory : Fin MEM_SIZE → directoryEntry
  instructions : Fin MAX_INSTR_NUM → instruction
  instructionCount : Int

/-- The numeric code of a cache line state, as printed with `%d`. -/
def cacheLineState.code : cacheLineState → Nat
  | .MODIFIED => 0
  | .EXCLUSIVE => 1
  | .SHARED => 2
  | .INVALID => 3

/-- One `printf` call of the program, with the arguments it formats. -/
inductive Output where
  /-- Line 133: `Processor %d: Writing value %d to address 0x%02X`. -/
  | writing (processorId : Int) (value address : byte)
  /-- Line 100: `Processor %d: Cache hit at index %d, updated value to %d, ...`. -/
  | cacheHit (processorId cacheIndex : Int) (value : byte)
  /-- Line 122: `Processor %d: Cache miss, replaced cache line at index %d with address ..., value %d, ...`. -/
  | cacheMiss (processorId replaceIndex : Int) (address value : byte)
  /-- Line 140: `Processor %d:`. -/
  | processorHeader (processorId : Int)
  /-- Line 141: `Cache State:`. -/
  | cacheStateHeader
  /-- Line 143: `  Address: 0x%02X, Value: %d, State: %d`. -/
  | cacheLineReport (address value : byte) (state : Nat)
  deriving DecidableEq, Repr

/-- The slot of `cache[i]` for a run-time `int` index; `none` when `i` is
outside `0 .. CACHE_SIZE-1`. -/
def cacheSlot (i : Int) : Option (Fin CACHE_SIZE) :=
  if h : 0 ≤ i ∧ i < (CACHE_SIZE : Int) then
    some ⟨i.toNat, by omega⟩
  else none

/-- The slot of `instructions[i]` for a run-time `int` index; `none` when
`i` is outside `0 .. MAX_INSTR_NUM-1`. -/
def instructionSlot (i : Int) : Option (Fin MAX_INSTR_NUM) :=
  if h : 0 ≤ i ∧ i < (MAX_INSTR_NUM : Int) then
    some ⟨i.toNat, by omega⟩
  else none

/-! ## Cache lookup (lines 84-91) -/

/-- Lines 84-91.  The loop returns the first `i < CACHE_SIZE` whose line has
the requested address, and `-1` when the loop runs to its end.  The node is
passed by pointer; it is returned next to the result. -/
def findCacheLineIndex (node : processorNode) (address : byte) : processorNode × Int :=
  match (List.finRange CACHE_SIZE).find? (fun i => decide ((node.cache i).address = address)) with
  | some i => (node, (i.val : Int))
  | none => (node, -1)

/-! ## Cache write handler (lines 93-124) -/

/-- Lines 93-124.  `none` stands for an out-of-range store into `cache`. -/
def handleCacheWrite (processorId : Int) (node : processorNode) (address value : byte) :
    Option (processorNode × List Output) :=
  let (node, cacheIndex) := findCacheLineIndex node address
  if cacheIndex ≠ -1 then
    -- cache hit: update the value and set the state to MODIFIED
    (cacheSlot cacheIndex).map fun k =>
      ({ node with
          cache := Function.update node.cache k
            { node.cache k with value := value, state := cacheLineState.MODIFIED } },
        [Output.cacheHit processorId cacheIndex value])
  else
    -- cache miss: the first INVALID line, else line 0
    let replaceIndex : Int :=
      match (List.finRange CACHE_SIZE).find?
          (fun i => decide ((node.cache i).state = cacheLineState.INVALID)) with
      | some i => (i.val : Int)
      | none => -1
    let replaceIndex : Int := if replaceIndex = -1 then 0 else replaceIndex
    (cacheSlot replaceIndex).map fun k =>
      ({ node with
          cache := Function.update node.cache k
            { address := address, value := value, state := cacheLineState.MODIFIED } },
        [Output.cacheMiss processorId replaceIndex address value])

/-! ## Execution engine (lines 126-137) -/

/-- Lines 127-136, the `for` loop entered with counter `i`.  The loop bound
`node->instructionCount` is read from the current node at every test.  The
natural number bounds the number of loop tests still allowed; `none` stands
for an out-of-range access to `instructions` or `cache`, and for a loop that
is cut off by that bound. -/
def executeInstructionLoop (processorId : Int) :
    Nat → Int → processorNode → List Output → Option (processorNode × List Output)
  | 0, _, _, _ => none
  | fuel + 1, i, node, out =>
    if i < node.instructionCount then
      (instructionSlot i).bind fun k =>
        let instr := node.instructions k
        let address := instr.address
        let value := instr.value
        if instr.type = 'W'.toNat then
          (handleCacheWrite processorId node address value).bind fun r =>
            executeInstructionLoop processorId fuel (i + 1) r.1
              (out ++ Output.writing processorId value address :: r.2)
        else
          executeInstructionLoop processorId fuel (i + 1) node out
    else
      some (node, out)

/-- Lines 126-137.  The loop makes `instructionCount + 1` tests of its
condition when nothing changes `instructionCount`; that many are allowed. -/
def executeInstruction (processorId : Int) (node : processorNode) :
    Option (processorNode × List Output) :=
  executeInstructionLoop processorId (node.instructionCount.toNat + 1) 0 node []

/-! ## Initialisation (lines 50-82) -/

/-- The status `EXIT_FAILURE` of `<stdlib.h>`. -/
abbrev EXIT_FAILURE : Nat := 1

/-- Line 64: `snprintf(filename, 128, "tests/%s/core_%d.txt", dirName, threadId)`;
at most 127 characters are kept. -/
def instructionFileName (dirName : String) (threadId : Int) : String :=
  String.mk (("tests/" ++ dirName ++ "/core_" ++ toString threadId ++ ".txt").toList.take 127)

/-- Lines 73-80, the `while` loop.  The first argument stands for `sscanf`
with the format of line 75: from the text of a line and the previous content
of the instruction slot it gives the new content of the slot.  The second
argument is the sequence of lines that the successive `fgets` calls still
return before the end of the file.  The counter is 0 when the loop is
entered and only incremented, so that `toNat` is its value. -/
def readInstructions (sscanf : List Char → instruction → instruction) :
    List (List Char) → processorNode → processorNode
  | [], node => node
  | line :: file, node =>
    if h : node.instructionCount < (MAX_INSTR_NUM : Int) then
      if line.head? = some 'R' ∨ line.head? = some 'W' then
        let k : Fin MAX_INSTR_NUM :=
          ⟨node.instructionCount.toNat, by simp only [MAX_INSTR_NUM, Nat.cast_ofNat] at h ⊢; omega⟩
        readInstructions sscanf file
          { node with
            instructions := Function.update node.instructions k (sscanf line (node.instructions k)),
            instructionCount := node.instructionCount + 1 }
      else
        readInstructions sscanf file node
    else
      node

/-- Lines 50-82.  `fopen` gives, for a file name, the lines of the file when
it can be opened for reading.  `node` is the storage that the caller passes,
with whatever it contains.  `Except.error` carries the status given to
`exit`; the message written to `stderr` is not recorded. -/
def initializeProcessor (fopen : String → Option (List (List Char)))
    (sscanf : List Char → instruction → instruction)
    (threadId : Int) (node : processorNode) (dirName : String) : Except Nat processorNode :=
  let node := (List.finRange MEM_SIZE).foldl (fun node i =>
    { node with
      memory := Function.update node.memory i ((20 * threadId + (i.val : Int)) % 256).toNat,
      directory := Function.update node.directory i
        { bitVector := 0, state := directoryEntryState.U } }) node
  let node := (List.finRange CACHE_SIZE).foldl (fun node i =>
    { node with
      cache := Function.update node.cache i
        { address := 0xFF, value := 0, state := cacheLineState.INVALID } }) node
  let filename := instructionFileName dirName threadId
  match fopen filename with
  | none => Except.error EXIT_FAILURE
  | some file =>
    let node := { node with instructionCount := 0 }
    Except.ok (readInstructions sscanf file node)

/-! ## Reporting and the program (lines 139-173) -/

/-- Lines 139-146. -/
def printProcessorState (processorId : Int) (node : processorNode) : List Output :=
  Output.processorHeader processorId :: Output.cacheStateHeader ::
    (List.finRange CACHE_SIZE).map fun i =>
      Output.cacheLineReport (node.cache i).address (node.cache i).value (node.cache i).state.code

/-- Lines 157-160: the initialisation loop over the processors from a list of
indices; the first failing `initializeProcessor` ends the program. -/
def initializeAll (fopen : String → Option (List (List Char)))
    (sscanf : List Char → instruction → instruction) (testDir : String) :
    List (Fin NUM_PROCS) → (Fin NUM_PROCS → processorNode) →
      Except Nat (Fin NUM_PROCS → processorNode)
  | [], processors => Except.ok processors
  | i :: rest, processors =>
    match initializeProcessor fopen sscanf (i.val : Int) (processors i) testDir with
    | Except.error status => Except.error status
    | Except.ok node => initializeAll fopen sscanf testDir rest (Function.update processors i node)

/-- Lines 162-165: the execution loop over the processors from a list of
indices, with the output written so far. -/
def executeAll :
    List (Fin NUM_PROCS) → (Fin NUM_PROCS → processorNode) → List Output →
      Option ((Fin NUM_PROCS → processorNode) × List Output)
  | [], processors, out => some (processors, out)
  | i :: rest, processors, out =>
    (executeInstruction (i.val : Int) (processors i)).bind fun r =>
      executeAll rest (Function.update processors i r.1) (out ++ r.2)

/-- Lines 148-173.  `argv` holds the `argc` arguments, the program name
first; `processors` is the uninitialised array of line 155.  The result is
the exit status with the content of standard output; `none` stands for an
out-of-range array access. -/
def main (fopen : String → Option (List (List Char)))
    (sscanf : List Char → instruction → instruction)
    (argv : List String) (processors : Fin NUM_PROCS → processorNode) :
    Option (Nat × List Output) :=
  match argv with
  | [] => some (EXIT_FAILURE, [])
  | [_] => some (EXIT_FAILURE, [])
  | _ :: testDir :: _ =>
    match initializeAll fopen sscanf testDir (List.finRange NUM_PROCS) processors with
    | Except.error status => some (status, [])
    | Except.ok processors =>
      (executeAll (List.finRange NUM_PROCS) processors []).map fun r =>
        (0, r.2 ++ ((List.finRange NUM_PROCS).map fun i =>
          printProcessorState (i.val : Int) (r.1 i)).flatten)

/-! ## Reachable nodes -/

/-- The nodes that the program can hold: the result of an initialisation,
followed by any number of writes of byte values to byte addresses. -/
inductive Reachable : processorNode → Prop where
  | init (fopen : String → Option (List (List Char)))
      (sscanf : List Char → instruction → instruction)
      (threadId : Int) (node₀ : processorNode) (dirName : String) (node : processorNode) :
      initializeProcessor fopen sscanf threadId node₀ dirName = Except.ok node → Reachable node
  | write (processorId : Int) (node : processorNode) (address value : byte)
      (node' : processorNode) (out : List Output) :
      Reachable node → address < 256 → value < 256 →
      handleCacheWrite processorId node address value = some (node', out) → Reachable node'

/-! ## The write stream of a node, after the specification -/

/-- The instruction stream of a node: the first `instructionCount` entries of
the instruction array, in order. -/
def instructionStream (node : processorNode) : List instruction :=
  ((List.finRange MAX_INSTR_NUM).map node.instructions).take node.instructionCount.toNat

/-- Specification side of the execution engine: the Cache Write Handler
applied successively, in order, to the address and value of every
instruction of the list whose type is WRITE. -/
def applyWrites (processorId : Int) : List instruction → processorNode → Option processorNode
  | [], node => some node
  | instr :: rest, node =>
    if instr.type = 'W'.toNat then
      (handleCacheWrite processorId node instr.address instr.value).bind fun r =>
        applyWrites processorId rest r.1
    else
      applyWrites processorId rest node


/-! ## Sample nodes -/

/-- The cache line that initialisation stores in every slot. -/
def initialLine : cacheLine := { address := 0xFF, value := 0, state := cacheLineState.INVALID }

/-- A node with an empty cache, zeroed memory and no instruction. -/
def emptyNode : processorNode :=
  { cache := fun _ => initialLine
    memory := fun _ => 0
    directory := fun _ => { bitVector := 0, state := directoryEntryState.U }
    instructions := fun _ => { type := 0, address := 0, value := 0 }
    instructionCount := 0 }

/-- A node whose four lines hold the addresses 1, 2, 3, 4 (line `i` holds
address `i + 1` and value `10 * (i + 1)`), all MODIFIED. -/
def fullNode : processorNode :=
  { emptyNode with
    cache := fun i =>
      { address := i.val + 1, value := 10 * (i.val + 1), state := cacheLineState.MODIFIED } }

/-- The node that initialisation of processor 0 gives from `emptyNode` when
the instruction file opens and is empty. -/
def bootNode : processorNode :=
  match initializeProcessor (fun _ => some []) (fun _ instr => instr) 0 emptyNode "suite" with
  | Except.ok node => node
  | Except.error _ => emptyNode

/-- The scenario of five writes: from the empty cache of `bootNode`, the
stream `W 0x01 10`, `W 0x02 20`, `W 0x03 30`, `W 0x04 40`, `W 0x05 50`. -/
def scenarioNode : processorNode :=
  { bootNode with
    instructions := fun i =>
      { type := 'W'.toNat, address := i.val + 1, value := 10 * (i.val + 1) }
    instructionCount := 5 }

/-- The scenario stream with `R 0x09 9` inserted before its third write. -/
def scenarioNodeWithRead : processorNode :=
  { bootNode with
    instructions := fun i =>
      if i.val < 2 then { type := 'W'.toNat, address := i.val + 1, value := 10 * (i.val + 1) }
      else if i.val = 2 then { type := 'R'.toNat, address := 9, value := 9 }
      else { type := 'W'.toNat, address := i.val, value := 10 * i.val }
    instructionCount := 6 }

/-- A node with the cache of `fullNode` and a stream of three READ instructions. -/
def readOnlyNode : processorNode :=
  { fullNode with
    instructions := fun i => { type := 'R'.toNat, address := i.val, value := 0 }
    instructionCount := 3 }

/-! ## Counting and sequences of writes -/

/-- The number of cache lines of a node whose state is INVALID. -/
def invalidCount (node : processorNode) : Nat :=
  ((List.finRange CACHE_SIZE).filter
    (fun i => decide ((node.cache i).state = cacheLineState.INVALID))).length

/-- The number of cache lines of a node whose state is not INVALID. -/
def residentCount (node : processorNode) : Nat :=
  ((List.finRange CACHE_SIZE).filter
    (fun i => decide ((node.cache i).state ≠ cacheLineState.INVALID))).length

/-- A node `node'` is obtained from `node` by a sequence of writes of the
handler (of any length, zero included). -/
inductive WritesTo (node : processorNode) : processorNode → Prop where
  | refl : WritesTo node node
  | step (processorId : Int) (mid node' : processorNode) (address value : byte)
      (out : List Output) :
      WritesTo node mid →
      handleCacheWrite processorId mid address value = some (node', out) → WritesTo node node'

/-- The structure of a cache that the claims on reachable nodes rest on:
every line is the initial line or MODIFIED, the INVALID lines come last, and
no two lines other than INVALID ones hold the same address. -/
structure CacheShape (node : processorNode) : Prop where
  line : ∀ i, node.cache i = initialLine ∨ (node.cache i).state = cacheLineState.MODIFIED
  suffix : ∀ i j, i < j → (node.cache i).state = cacheLineState.INVALID →
    (node.cache j).state = cacheLineState.INVALID
  unique : ∀ i j, (node.cache i).state ≠ cacheLineState.INVALID →
    (node.cache j).state ≠ cacheLineState.INVALID →
    (node.cache i).address = (node.cache j).address → i = j

/-- The node after the write of value 7 to the sentinel address `0xFF` in
the empty cache of `bootNode`. -/
def sentinelNode : processorNode :=
  match handleCacheWrite 0 bootNode 0xFF 7 with
  | some r => r.1
  | none => bootNode

/-- Four processor nodes with different streams: the scenario, the scenario
with a READ, three READ instructions on a full cache, and no instruction. -/
def sampleProcessors : Fin NUM_PROCS → processorNode := fun i =>
  if i.val = 0 then scenarioNode
  else if i.val = 1 then scenarioNodeWithRead
  else if i.val = 2 then readOnlyNode
  else bootNode

/-- The scenario continued by a sixth write: from the empty cache of
`bootNode`, the stream `W 0x01 10`, ..., `W 0x05 50`, `W 0x06 60`. -/
def sixWritesNode : processorNode :=
  { scenarioNode with instructionCount := 6 }

/-- The node that initialisation of processor 0 gives from `emptyNode` when
the instruction file holds the line `W 20 1`, read as a write of 1 to the
address `0x20`. -/
def farNode : processorNode :=
  match initializeProcessor (fun _ => some [['W', ' ', '2', '0', ' ', '1']])
      (fun _ _ => { type := 'W'.toNat, address := 0x20, value := 1 }) 0 emptyNode "suite" with
  | Except.ok node => node
  | Except.error _ => emptyNode

/-- The node after the write of 10 to address 1 in the empty cache of `bootNode`. -/
def oneLineNode : processorNode :=
  match handleCacheWrite 0 bootNode 1 10 with
  | some r => r.1
  | none => bootNode

/-- The node after the further write of 20 to address 2. -/
def twoLinesNode : processorNode :=
  match handleCacheWrite 0 oneLineNode 2 20 with
  | some r => r.1
  | none => oneLineNode

/-- The node after the further write of 30 to address 3. -/
def threeLinesNode : processorNode :=
  match handleCacheWrite 0 twoLinesNode 3 30 with
  | some r => r.1
  | none => twoLinesNode

/-! ## Occupancy of the cache after a stream, after the specification -/

/-- The addresses of the WRITE instructions of a stream, in order. -/
def writtenAddresses (l : List instruction) : List byte :=
  (l.filter (fun instr => decide (instr.type = 'W'.toNat))).map (fun instr => instr.address)

/-- The number of distinct addresses among the WRITE instructions of a stream. -/
def distinctWrites (l : List instruction) : Nat :=
  (writtenAddresses l).dedup.length

/-- The value of the last WRITE instruction of a stream to an address, when
there is one. -/
def lastWrittenValue (l : List instruction) (a : byte) : Option byte :=
  ((l.filter (fun instr => decide (instr.type = 'W'.toNat ∧ instr.address = a))).getLast?).map
    (fun instr => instr.value)

/-- The relation of a cache to the stream of instructions that was applied to
the empty cache to give it: the structure of the cache, and what the claim
on occupancy says of the resident addresses, of their values and of the
number of lines that are not INVALID. -/
structure Occupancy (l : List instruction) (node : processorNode) : Prop where
  shape : CacheShape node
  resident : distinctWrites l ≤ 4 → ∀ a, a ∈ writtenAddresses l ↔
    ∃ i, (node.cache i).state ≠ cacheLineState.INVALID ∧ (node.cache i).address = a
  values : distinctWrites l ≤ 4 → ∀ i, (node.cache i).state ≠ cacheLineState.INVALID →
    lastWrittenValue l (node.cache i).address = some (node.cache i).value
  full : 4 ≤ distinctWrites l → ∀ i, (node.cache i).state ≠ cacheLineState.INVALID
  count : residentCount node = min 4 (distinctWrites l)

/-- A reading of instruction lines of the form `W a v` or `R a v` whose two
fields have one digit each, standing for `sscanf` on such lines. -/
def digitScan (line : List Char) (_ : instruction) : instruction :=
  { type := (line.getD 0 'R').toNat
    address := (line.getD 2 '0').toNat - '0'.toNat
    value := (line.getD 4 '0').toNat - '0'.toNat }

/-- The node that initialisation of processor 1 gives from `emptyNode` when
the instruction file holds the lines `W 1 5`, `R 2 0`, `W 3 7`, `W 1 9`. -/
def revisitNode : processorNode :=
  match initializeProcessor
      (fun _ => some [['W', ' ', '1', ' ', '5'], ['R', ' ', '2', ' ', '0'],
        ['W', ' ', '3', ' ', '7'], ['W', ' ', '1', ' ', '9']])
      digitScan 1 emptyNode "suite" with
  | Except.ok node => node
  | Except.error _ => emptyNode

/-! ## Order of the fills, after the specification -/

/-- The indices of the lines that the misses reported in an output have
replaced, in the order of the misses. -/
def replacedLines (out : List Output) : List Int :=
  out.filterMap fun o =>
    match o with
    | Output.cacheMiss _ replaceIndex _ _ => some replaceIndex
    | _ => none

/-- The age of line `k` after the misses that replaced the lines of a list:
the number of misses since the last one that filled line `k` (the length of
the list when none did).  The oldest line is the one of greatest age. -/
def fillAge (replaced : List Int) (k : Int) : Nat :=
  replaced.reverse.indexOf k

/-- The node after the further write of 40 to address 4: the cache is full. -/
def fourLinesNode : processorNode :=
  match handleCacheWrite 0 threeLinesNode 4 40 with
  | some r => r.1
  | none => threeLinesNode

/-- The node after the further write of 50 to address 5, which has replaced
line 0. -/
def evictedOnceNode : processorNode :=
  match handleCacheWrite 0 fourLinesNode 5 50 with
  | some r => r.1
  | none => fourLinesNode

/-! ## Auxiliary facts on the two scans and on the branches of a write -/
theorem finRange_find (p : Fin 4 → Bool) :
    (List.finRange 4).find? p =
      if p 0 then some 0 else if p 1 then some 1
      else if p 2 then some 2 else if p 3 then some 3 else none := by
  have : List.finRange 4 = [0, 1, 2, 3] := by decide
  rw [this]
  cases h0 : p 0 <;> cases h1 : p 1 <;> cases h2 : p 2 <;>
    cases h3 : p 3 <;> simp [List.find?, h0, h1, h2, h3]

theorem forall_fin4 (P : Fin 4 → Prop) : (∀ j, P j) ↔ P 0 ∧ P 1 ∧ P 2 ∧ P 3 := by
  constructor
  · intro h; exact ⟨h 0, h 1, h 2, h 3⟩
  · rintro ⟨h0, h1, h2, h3⟩ j
    fin_cases j <;> assumption

theorem finRange_find_eq_some (p : Fin 4 → Bool) (k : Fin 4) :
    (List.finRange 4).find? p = some k ↔ p k = true ∧ ∀ j, j < k → p j = false := by
  rw [finRange_find, forall_fin4]
  cases h0 : p 0 <;> cases h1 : p 1 <;> cases h2 : p 2 <;> cases h3 : p 3 <;>
    fin_cases k <;> simp [h0, h1, h2, h3]

theorem finRange_find_eq_none (p : Fin 4 → Bool) :
    (List.finRange 4).find? p = none ↔ ∀ j, p j = false := by
  rw [finRange_find, forall_fin4]
  cases h0 : p 0 <;> cases h1 : p 1 <;> cases h2 : p 2 <;> cases h3 : p 3 <;>
    simp [h0, h1, h2, h3]

theorem cacheSlot_coe (k : Fin CACHE_SIZE) : cacheSlot (k.val : Int) = some k := by
  unfold cacheSlot
  have := k.isLt
  rw [dif_pos (by omega)]
  simp

theorem findCacheLineIndex_fst (node : processorNode) (a : byte) :
    (findCacheLineIndex node a).1 = node := by
  unfold findCacheLineIndex
  split <;> rfl

theorem findCacheLineIndex_eq_coe (node : processorNode) (a : byte) (k : Fin CACHE_SIZE) :
    (findCacheLineIndex node a).2 = (k.val : Int) ↔
      (node.cache k).address = a ∧ ∀ j, j < k → (node.cache j).address ≠ a := by
  have key := finRange_find_eq_some (fun i => decide ((node.cache i).address = a)) k
  simp only [decide_eq_true_eq, decide_eq_false_iff_not] at key
  rw [← key]
  unfold findCacheLineIndex
  split
  · rename_i i hi
    rw [hi]
    simp only [Option.some.injEq]
    constructor
    · intro h; exact Fin.ext (by exact_mod_cast h)
    · intro h; rw [h]
  · rename_i hi
    rw [hi]
    simp only [reduceCtorEq, iff_false]

theorem findCacheLineIndex_eq_neg_one (node : processorNode) (a : byte) :
    (findCacheLineIndex node a).2 = -1 ↔ ∀ j, (node.cache j).address ≠ a := by
  have key := finRange_find_eq_none (fun i => decide ((node.cache i).address = a))
  simp only [decide_eq_false_iff_not] at key
  rw [← key]
  unfold findCacheLineIndex
  split
  · rename_i i hi
    rw [hi]
    simp only [reduceCtorEq, iff_false]
  · rename_i hi
    simp [hi]

theorem findCacheLineIndex_range (node : processorNode) (a : byte) :
    (findCacheLineIndex node a).2 = -1 ∨
      ∃ k : Fin CACHE_SIZE, (findCacheLineIndex node a).2 = (k.val : Int) := by
  unfold findCacheLineIndex
  split
  · rename_i i _; exact Or.inr ⟨i, rfl⟩
  · exact Or.inl rfl

theorem handleCacheWrite_hit (processorId : Int) (node : processorNode) (a v : byte)
    (k : Fin CACHE_SIZE) (hk : (findCacheLineIndex node a).2 = (k.val : Int)) :
    handleCacheWrite processorId node a v =
      some ({ node with
              cache := Function.update node.cache k
                { node.cache k with value := v, state := cacheLineState.MODIFIED } },
            [Output.cacheHit processorId (k.val : Int) v]) := by
  have hpair : findCacheLineIndex node a = (node, (k.val : Int)) :=
    Prod.ext (findCacheLineIndex_fst node a) hk
  have hne : ((k.val : Int)) ≠ -1 := by omega
  simp only [handleCacheWrite, hpair, if_pos hne, cacheSlot_coe, Option.map_some']

theorem handleCacheWrite_miss (processorId : Int) (node : processorNode) (a v : byte)
    (hmiss : (findCacheLineIndex node a).2 = -1) (k : Fin CACHE_SIZE)
    (hk : (List.finRange CACHE_SIZE).find?
      (fun i => decide ((node.cache i).state = cacheLineState.INVALID)) = some k) :
    handleCacheWrite processorId node a v =
      some ({ node with
              cache := Function.update node.cache k
                { address := a, value := v, state := cacheLineState.MODIFIED } },
            [Output.cacheMiss processorId (k.val : Int) a v]) := by
  have hpair : findCacheLineIndex node a = (node, -1) :=
    Prod.ext (findCacheLineIndex_fst node a) hmiss
  have hne : ((k.val : Int)) ≠ -1 := by omega
  simp only [handleCacheWrite, hpair, hk, ne_eq, not_true_eq_false, if_false, if_neg hne,
    cacheSlot_coe, Option.map_some']

theorem handleCacheWrite_miss_full (processorId : Int) (node : processorNode) (a v : byte)
    (hmiss : (findCacheLineIndex node a).2 = -1)
    (hk : (List.finRange CACHE_SIZE).find?
      (fun i => decide ((node.cache i).state = cacheLineState.INVALID)) = none) :
    handleCacheWrite processorId node a v =
      some ({ node with
              cache := Function.update node.cache 0
                { address := a, value := v, state := cacheLineState.MODIFIED } },
            [Output.cacheMiss processorId 0 a v]) := by
  have hpair : findCacheLineIndex node a = (node, -1) :=
    Prod.ext (findCacheLineIndex_fst node a) hmiss
  have h0 : cacheSlot 0 = some 0 := cacheSlot_coe 0
  simp only [handleCacheWrite, hpair, hk, ne_eq, not_true_eq_false, if_false, if_true,
    h0, Option.map_some']

/-- The state MODIFIED line that a write of `v` to `a` leaves behind. -/
theorem handleCacheWrite_cases (processorId : Int) (node : processorNode) (a v : byte) :
    ∃ k : Fin CACHE_SIZE,
      (((node.cache k).address = a ∧ (∀ j, j < k → (node.cache j).address ≠ a) ∧
          handleCacheWrite processorId node a v =
            some ({ node with
                    cache := Function.update node.cache k
                      { address := a, value := v, state := cacheLineState.MODIFIED } },
                  [Output.cacheHit processorId (k.val : Int) v])) ∨
       ((∀ j, (node.cache j).address ≠ a) ∧
          (((node.cache k).state = cacheLineState.INVALID ∧
              ∀ j, j < k → (node.cache j).state ≠ cacheLineState.INVALID) ∨
            ((∀ j, (node.cache j).state ≠ cacheLineState.INVALID) ∧ k = 0)) ∧
          handleCacheWrite processorId node a v =
            some ({ node with
                    cache := Function.update node.cache k
                      { address := a, value := v, state := cacheLineState.MODIFIED } },
                  [Output.cacheMiss processorId (k.val : Int) a v]))) := by
  rcases findCacheLineIndex_range node a with hm | ⟨k, hk⟩
  · have hall := (findCacheLineIndex_eq_neg_one node a).1 hm
    cases hf : (List.finRange CACHE_SIZE).find?
        (fun i => decide ((node.cache i).state = cacheLineState.INVALID)) with
    | none =>
      refine ⟨0, Or.inr ⟨hall, Or.inr ⟨?_, rfl⟩,
        handleCacheWrite_miss_full processorId node a v hm hf⟩⟩
      intro j
      have := (finRange_find_eq_none _).1 hf j
      simpa using this
    | some k =>
      refine ⟨k, Or.inr ⟨hall, Or.inl ?_, handleCacheWrite_miss processorId node a v hm k hf⟩⟩
      have := (finRange_find_eq_some _ k).1 hf
      simpa using this
  · have hkc := (findCacheLineIndex_eq_coe node a k).1 hk
    refine ⟨k, Or.inl ⟨hkc.1, hkc.2, ?_⟩⟩
    rw [handleCacheWrite_hit processorId node a v k hk]
    simp only [hkc.1]

/-- A lookup of `a` after line `k` was set to hold `a`, when `k` was the first
line with `a` or no line had `a`. -/
theorem findCacheLineIndex_update (node : processorNode) (a v : byte) (k : Fin CACHE_SIZE)
    (hk : ∀ j, j < k → (node.cache j).address ≠ a) :
    (findCacheLineIndex
      { node with
        cache := Function.update node.cache k
          { address := a, value := v, state := cacheLineState.MODIFIED } } a).2 = (k.val : Int) := by
  rw [findCacheLineIndex_eq_coe]
  constructor
  · simp
  · intro j hj
    have hne : j ≠ k := ne_of_lt hj
    simpa [Function.update_noteq hne] using hk j hj

/-! ## Auxiliary facts on initialisation -/

theorem readInstructions_frame (sscanf : List Char → instruction → instruction)
    (file : List (List Char)) (node : processorNode) :
    (readInstructions sscanf file node).cache = node.cache ∧
    (readInstructions sscanf file node).memory = node.memory ∧
    (readInstructions sscanf file node).directory = node.directory := by
  induction file generalizing node with
  | nil => exact ⟨rfl, rfl, rfl⟩
  | cons line file ih =>
    unfold readInstructions
    split_ifs with h1 h2
    · exact ih _
    · exact ih _
    · exact ⟨rfl, rfl, rfl⟩

theorem memoryLoop_spec (g : Fin MEM_SIZE → byte) (d : directoryEntry)
    (l : List (Fin MEM_SIZE)) (node : processorNode) :
    (l.foldl (fun node i =>
        { node with
          memory := Function.update node.memory i (g i),
          directory := Function.update node.directory i d }) node).cache = node.cache ∧
    (∀ j, (l.foldl (fun node i =>
        { node with
          memory := Function.update node.memory i (g i),
          directory := Function.update node.directory i d }) node).memory j =
        if j ∈ l then g j else node.memory j) ∧
    (∀ j, (l.foldl (fun node i =>
        { node with
          memory := Function.update node.memory i (g i),
          directory := Function.update node.directory i d }) node).directory j =
        if j ∈ l then d else node.directory j) := by
  induction l generalizing node with
  | nil => simp
  | cons i l ih =>
    simp only [List.foldl_cons]
    obtain ⟨h1, h2, h3⟩ := ih
      { node with
        memory := Function.update node.memory i (g i),
        directory := Function.update node.directory i d }
    refine ⟨h1, fun j => ?_, fun j => ?_⟩
    · rw [h2 j]
      by_cases hj : j ∈ l
      · simp [hj]
      · by_cases hji : j = i
        · subst hji; simp [hj]
        · simp [hj, hji, Function.update_noteq hji]
    · rw [h3 j]
      by_cases hj : j ∈ l
      · simp [hj]
      · by_cases hji : j = i
        · subst hji; simp [hj]
        · simp [hj, hji, Function.update_noteq hji]

theorem cacheLoop_spec (c : cacheLine) (l : List (Fin CACHE_SIZE)) (node : processorNode) :
    (l.foldl (fun node i =>
        { node with cache := Function.update node.cache i c }) node).memory = node.memory ∧
    (l.foldl (fun node i =>
        { node with cache := Function.update node.cache i c }) node).directory = node.directory ∧
    (∀ j, (l.foldl (fun node i =>
        { node with cache := Function.update node.cache i c }) node).cache j =
        if j ∈ l then c else node.cache j) := by
  induction l generalizing node with
  | nil => simp
  | cons i l ih =>
    simp only [List.foldl_cons]
    obtain ⟨h1, h2, h3⟩ := ih { node with cache := Function.update node.cache i c }
    refine ⟨h1, h2, fun j => ?_⟩
    rw [h3 j]
    by_cases hj : j ∈ l
    · simp [hj]
    · by_cases hji : j = i
      · subst hji; simp [hj]
      · simp [hj, hji, Function.update_noteq hji]

/-- What a successful initialisation leaves in the cache, the directory and
the memory. -/
theorem initializeProcessor_post (fopen : String → Option (List (List Char)))
    (sscanf : List Char → instruction → instruction)
    (threadId : Int) (node : processorNode) (dirName : String) (node' : processorNode)
    (h : initializeProcessor fopen sscanf threadId node dirName = Except.ok node') :
    (∀ i, node'.cache i = initialLine) ∧
    (∀ i, node'.directory i = { bitVector := 0, state := directoryEntryState.U }) ∧
    (∀ i : Fin MEM_SIZE, node'.memory i = ((20 * threadId + (i.val : Int)) % 256).toNat) := by
  unfold initializeProcessor at h
  simp only at h
  split at h
  · exact absurd h (by simp)
  · rename_i file hfile
    simp only [Except.ok.injEq] at h
    subst h
    obtain ⟨r1, r2, r3⟩ := readInstructions_frame sscanf file
      { (List.foldl (fun node i =>
          { node with
            cache := Function.update node.cache i
              { address := 0xFF, value := 0, state := cacheLineState.INVALID } })
          (List.foldl (fun node i =>
            { node with
              memory := Function.update node.memory i ((20 * threadId + (i.val : Int)) % 256).toNat,
              directory := Function.update node.directory i
                { bitVector := 0, state := directoryEntryState.U } }) node
            (List.finRange MEM_SIZE)) (List.finRange CACHE_SIZE)) with instructionCount := 0 }
    rw [r1, r2, r3]
    obtain ⟨c1, c2, c3⟩ := cacheLoop_spec
      { address := 0xFF, value := 0, state := cacheLineState.INVALID } (List.finRange CACHE_SIZE)
      (List.foldl (fun node i =>
            { node with
              memory := Function.update node.memory i ((20 * threadId + (i.val : Int)) % 256).toNat,
              directory := Function.update node.directory i
                { bitVector := 0, state := directoryEntryState.U } }) node
            (List.finRange MEM_SIZE))
    obtain ⟨m1, m2, m3⟩ := memoryLoop_spec
      (fun i => ((20 * threadId + (i.val : Int)) % 256).toNat)
      { bitVector := 0, state := directoryEntryState.U } (List.finRange MEM_SIZE) node
    refine ⟨fun i => ?_, fun i => ?_, fun i => ?_⟩
    · simp only
      rw [c3 i]
      simp [initialLine, List.mem_finRange]
    · simp only
      rw [c2, m3 i]
      simp [List.mem_finRange]
    · simp only
      rw [c1, m2 i]
      simp [List.mem_finRange]

theorem initializeProcessor_opens (fopen : String → Option (List (List Char)))
    (sscanf : List Char → instruction → instruction)
    (threadId : Int) (node : processorNode) (dirName : String) (file : List (List Char))
    (h : fopen (instructionFileName dirName threadId) = some file) :
    ∃ node', initializeProcessor fopen sscanf threadId node dirName = Except.ok node' := by
  unfold initializeProcessor
  simp only [h]
  exact ⟨_, rfl⟩

/-! ## Auxiliary facts on reachable nodes -/

/-- In a reachable node every line is the initial line or is MODIFIED. -/
theorem Reachable.line_shape {node : processorNode} (h : Reachable node) :
    ∀ i, node.cache i = initialLine ∨ (node.cache i).state = cacheLineState.MODIFIED := by
  induction h with
  | init fopen sscanf threadId node₀ dirName node hinit =>
    intro i
    exact Or.inl ((initializeProcessor_post fopen sscanf threadId node₀ dirName node hinit).1 i)
  | write processorId node a v node' out _ _ _ hw ih =>
    intro i
    obtain ⟨k, hc⟩ := handleCacheWrite_cases processorId node a v
    have hnode' : node' = { node with
        cache := Function.update node.cache k
          { address := a, value := v, state := cacheLineState.MODIFIED } } := by
      rcases hc with ⟨_, _, h3⟩ | ⟨_, _, h3⟩ <;>
        · rw [h3] at hw
          simp only [Option.some.injEq, Prod.mk.injEq] at hw
          exact hw.1.symm
    subst hnode'
    by_cases hik : i = k
    · subst hik; right; simp
    · simpa [Function.update_noteq hik] using ih i

theorem bootNode_reachable : Reachable bootNode :=
  Reachable.init (fun _ => some []) (fun _ instr => instr) 0 emptyNode "suite" bootNode rfl

/-! ## Auxiliary facts on the execution loop -/

/-- A write succeeds and changes nothing but the cache. -/
theorem handleCacheWrite_frame (processorId : Int) (node : processorNode) (a v : byte) :
    ∃ (node' : processorNode) (out : List Output),
      handleCacheWrite processorId node a v = some (node', out) ∧
      node'.memory = node.memory ∧ node'.directory = node.directory ∧
      node'.instructions = node.instructions ∧
      node'.instructionCount = node.instructionCount := by
  obtain ⟨k, h⟩ := handleCacheWrite_cases processorId node a v
  rcases h with ⟨_, _, h3⟩ | ⟨_, _, h3⟩
  · exact ⟨_, _, h3, rfl, rfl, rfl, rfl⟩
  · exact ⟨_, _, h3, rfl, rfl, rfl, rfl⟩

theorem instructionSlot_coe (i : Nat) (h : i < MAX_INSTR_NUM) :
    instructionSlot (i : Int) = some ⟨i, h⟩ := by
  unfold instructionSlot
  have h32 : i < 32 := h
  rw [dif_pos (by simp only [MAX_INSTR_NUM, Nat.cast_ofNat]; omega)]
  simp

/-- The entries of a stream from position `i` on, when `i` is below its length. -/
theorem stream_drop (stream : Fin MAX_INSTR_NUM → instruction) (m i : Nat)
    (hi : i < m) (hm : m ≤ MAX_INSTR_NUM) :
    (((List.finRange MAX_INSTR_NUM).map stream).take m).drop i =
      stream ⟨i, lt_of_lt_of_le hi hm⟩ ::
        (((List.finRange MAX_INSTR_NUM).map stream).take m).drop (i + 1) := by
  have hlen : i < (((List.finRange MAX_INSTR_NUM).map stream).take m).length := by
    simp only [List.length_take, List.length_map, List.length_finRange]
    have : m ≤ 32 := hm
    omega
  rw [List.drop_eq_getElem_cons hlen]
  congr 1
  simp

/-- The loop of `executeInstruction`, entered at counter `i` with enough loop
tests allowed, ends and gives the node that the successive writes of the
rest of the stream give. -/
theorem executeInstructionLoop_spec (processorId : Int)
    (stream : Fin MAX_INSTR_NUM → instruction) (n : Int) (hn : n ≤ (MAX_INSTR_NUM : Int)) :
    ∀ (fuel i : Nat) (node : processorNode) (out : List Output),
      node.instructions = stream → node.instructionCount = n →
      n.toNat + 1 ≤ fuel + i → i ≤ n.toNat →
      ∃ (node' : processorNode) (out' : List Output),
        executeInstructionLoop processorId fuel (i : Int) node out = some (node', out') ∧
        applyWrites processorId
          ((((List.finRange MAX_INSTR_NUM).map stream).take n.toNat).drop i) node = some node' ∧
        node'.instructions = stream ∧ node'.instructionCount = n := by
  have hn32 : n.toNat ≤ MAX_INSTR_NUM := by
    simp only [MAX_INSTR_NUM, Nat.cast_ofNat] at hn ⊢
    omega
  intro fuel
  induction fuel with
  | zero =>
    intro i node out _ _ hfuel hi
    omega
  | succ fuel ih =>
    intro i node out hs hc hfuel hi
    unfold executeInstructionLoop
    by_cases hlt : (i : Int) < node.instructionCount
    · rw [if_pos hlt]
      have hin : i < n.toNat := by rw [hc] at hlt; omega
      have hi32 : i < MAX_INSTR_NUM := lt_of_lt_of_le hin hn32
      rw [instructionSlot_coe i hi32, stream_drop stream n.toNat i hin hn32]
      simp only [Option.some_bind, hs]
      by_cases hw : (stream ⟨i, hi32⟩).type = 'W'.toNat
      · rw [if_pos hw]
        obtain ⟨node₁, out₁, hw₁, _, _, hs₁, hc₁⟩ :=
          handleCacheWrite_frame processorId node (stream ⟨i, hi32⟩).address
            (stream ⟨i, hi32⟩).value
        obtain ⟨node', out', h1, h2, h3⟩ := ih (i + 1) node₁
          (out ++ Output.writing processorId (stream ⟨i, hi32⟩).value
            (stream ⟨i, hi32⟩).address :: out₁)
          (hs₁.trans hs) (hc₁.trans hc) (by omega) (by omega)
        refine ⟨node', out', ?_, ?_, h3⟩
        · rw [hw₁]
          simpa using h1
        · unfold applyWrites
          rw [if_pos hw, hw₁]
          simpa using h2
      · rw [if_neg hw]
        obtain ⟨node', out', h1, h2, h3⟩ := ih (i + 1) node out hs hc (by omega) (by omega)
        refine ⟨node', out', by simpa using h1, ?_, h3⟩
        unfold applyWrites
        rw [if_neg hw]
        exact h2
    · rw [if_neg hlt]
      refine ⟨node, out, rfl, ?_, hs, hc⟩
      have hge : n.toNat ≤ i := by rw [hc] at hlt; omega
      rw [List.drop_eq_nil_of_le (by simp only [List.length_take]; omega)]
      rfl

/-! ## Auxiliary facts for the scenario and for READ instructions -/

/-- A miss that finds its first INVALID line at `k`. -/
theorem handleCacheWrite_miss_at (processorId : Int) (node : processorNode) (a v : byte)
    (k : Fin CACHE_SIZE) (hmiss : ∀ j, (node.cache j).address ≠ a)
    (hk : (node.cache k).state = cacheLineState.INVALID)
    (hlow : ∀ j, j < k → (node.cache j).state ≠ cacheLineState.INVALID) :
    handleCacheWrite processorId node a v =
      some ({ node with
              cache := Function.update node.cache k
                { address := a, value := v, state := cacheLineState.MODIFIED } },
            [Output.cacheMiss processorId (k.val : Int) a v]) := by
  apply handleCacheWrite_miss processorId node a v ((findCacheLineIndex_eq_neg_one node a).2 hmiss)
  rw [finRange_find_eq_some]
  refine ⟨by simpa using hk, fun j hj => ?_⟩
  simpa using hlow j hj

/-- A miss in a cache without INVALID line. -/
theorem handleCacheWrite_miss_at_zero (processorId : Int) (node : processorNode) (a v : byte)
    (hmiss : ∀ j, (node.cache j).address ≠ a)
    (hfull : ∀ j, (node.cache j).state ≠ cacheLineState.INVALID) :
    handleCacheWrite processorId node a v =
      some ({ node with
              cache := Function.update node.cache 0
                { address := a, value := v, state := cacheLineState.MODIFIED } },
            [Output.cacheMiss processorId 0 a v]) := by
  apply handleCacheWrite_miss_full processorId node a v
    ((findCacheLineIndex_eq_neg_one node a).2 hmiss)
  rw [finRange_find_eq_none]
  intro j
  simpa using hfull j

/-- The stream of a node with five instructions. -/
theorem instructionStream_five (node : processorNode) (hcount : node.instructionCount = 5) :
    instructionStream node =
      [node.instructions 0, node.instructions 1, node.instructions 2, node.instructions 3,
        node.instructions 4] := by
  have h5 : (List.finRange MAX_INSTR_NUM).take 5 = [0, 1, 2, 3, 4] := by decide
  unfold instructionStream
  rw [hcount, ← List.map_take]
  simp [h5]

theorem applyWrites_append (processorId : Int) (l₁ l₂ : List instruction) (node : processorNode) :
    applyWrites processorId (l₁ ++ l₂) node =
      (applyWrites processorId l₁ node).bind (applyWrites processorId l₂) := by
  induction l₁ generalizing node with
  | nil => simp [applyWrites]
  | cons instr l₁ ih =>
    simp only [List.cons_append, applyWrites]
    split_ifs with hw
    · cases handleCacheWrite processorId node instr.address instr.value with
      | none => simp
      | some r => simpa using ih r.1
    · exact ih node

/-- A write handler result depends on the cache of the node only. -/
theorem handleCacheWrite_congr (processorId : Int) (node₁ node₂ : processorNode) (a v : byte)
    (h : node₂.cache = node₁.cache) :
    handleCacheWrite processorId node₂ a v =
      (handleCacheWrite processorId node₁ a v).map
        (fun r => ({ node₂ with cache := r.1.cache }, r.2)) := by
  obtain ⟨k, hc⟩ := handleCacheWrite_cases processorId node₁ a v
  rcases hc with ⟨h1, h2, h3⟩ | ⟨h1, h2, h3⟩
  · rw [h3]
    have hk : (findCacheLineIndex node₂ a).2 = (k.val : Int) := by
      rw [findCacheLineIndex_eq_coe, h]
      exact ⟨h1, h2⟩
    rw [handleCacheWrite_hit processorId node₂ a v k hk]
    simp [h, h1]
  · rw [h3]
    rcases h2 with ⟨hi, hl⟩ | ⟨hfull, hk0⟩
    · rw [handleCacheWrite_miss_at processorId node₂ a v k (by rw [h]; exact h1)
        (by rw [h]; exact hi) (by rw [h]; exact hl)]
      simp [h]
    · subst hk0
      rw [handleCacheWrite_miss_at_zero processorId node₂ a v (by rw [h]; exact h1)
        (by rw [h]; exact hfull)]
      simp [h]

theorem applyWrites_congr (processorId : Int) (l : List instruction)
    (node₁ node₂ : processorNode) (h : node₂.cache = node₁.cache) :
    applyWrites processorId l node₂ =
      (applyWrites processorId l node₁).map (fun r => { node₂ with cache := r.cache }) := by
  induction l generalizing node₁ node₂ with
  | nil =>
    simp only [applyWrites, Option.map_some']
    rw [← h]
  | cons instr l ih =>
    simp only [applyWrites]
    split_ifs with hw
    · rw [handleCacheWrite_congr processorId node₁ node₂ instr.address instr.value h]
      cases handleCacheWrite processorId node₁ instr.address instr.value with
      | none => simp
      | some r =>
        simp only [Option.map_some', Option.some_bind]
        exact ih r.1 { node₂ with cache := r.1.cache } rfl
    · exact ih node₁ node₂ h

/-- Instructions that are not writes leave the node as it is. -/
theorem applyWrites_no_write (processorId : Int) (l : List instruction) (node : processorNode)
    (h : ∀ instr ∈ l, instr.type ≠ 'W'.toNat) : applyWrites processorId l node = some node := by
  induction l with
  | nil => rfl
  | cons instr l ih =>
    simp only [applyWrites]
    rw [if_neg (h instr (List.mem_cons_self _ _))]
    exact ih (fun i hi => h i (List.mem_cons_of_mem _ hi))

/-! ## Auxiliary facts on the structure of reachable caches -/

/-- The result of a write, read back from the equation that gives it. -/
theorem handleCacheWrite_some (processorId : Int) (node node' : processorNode) (a v : byte)
    (out : List Output) (h : handleCacheWrite processorId node a v = some (node', out)) :
    ∃ k : Fin CACHE_SIZE,
      node' = { node with
        cache := Function.update node.cache k
          { address := a, value := v, state := cacheLineState.MODIFIED } } ∧
      (((node.cache k).address = a ∧ (∀ j, j < k → (node.cache j).address ≠ a) ∧
          out = [Output.cacheHit processorId (k.val : Int) v]) ∨
       ((∀ j, (node.cache j).address ≠ a) ∧
          (((node.cache k).state = cacheLineState.INVALID ∧
              ∀ j, j < k → (node.cache j).state ≠ cacheLineState.INVALID) ∨
            ((∀ j, (node.cache j).state ≠ cacheLineState.INVALID) ∧ k = 0)) ∧
          out = [Output.cacheMiss processorId (k.val : Int) a v])) := by
  obtain ⟨k, hc⟩ := handleCacheWrite_cases processorId node a v
  rcases hc with ⟨h1, h2, h3⟩ | ⟨h1, h2, h3⟩
  · rw [h3] at h
    simp only [Option.some.injEq, Prod.mk.injEq] at h
    exact ⟨k, h.1.symm, Or.inl ⟨h1, h2, h.2.symm⟩⟩
  · rw [h3] at h
    simp only [Option.some.injEq, Prod.mk.injEq] at h
    exact ⟨k, h.1.symm, Or.inr ⟨h1, h2, h.2.symm⟩⟩

theorem CacheShape.sentinel {node : processorNode} (h : CacheShape node) (i : Fin CACHE_SIZE)
    (hi : (node.cache i).state = cacheLineState.INVALID) : (node.cache i).address = 0xFF := by
  rcases h.line i with hl | hl
  · rw [hl]; rfl
  · rw [hl] at hi; exact absurd hi (by decide)

/-- A write keeps the structure of the cache. -/
theorem CacheShape.write {node : processorNode} (h : CacheShape node) (processorId : Int)
    (a v : byte) (node' : processorNode) (out : List Output)
    (hw : handleCacheWrite processorId node a v = some (node', out)) : CacheShape node' := by
  obtain ⟨k, hnode, hc⟩ := handleCacheWrite_some processorId node node' a v out hw
  subst hnode
  have hstate : ∀ i, i ≠ k →
      (Function.update node.cache k
        { address := a, value := v, state := cacheLineState.MODIFIED } i) = node.cache i :=
    fun i hi => Function.update_noteq hi _ _
  have hk : (Function.update node.cache k
      { address := a, value := v, state := cacheLineState.MODIFIED } k) =
      { address := a, value := v, state := cacheLineState.MODIFIED } := Function.update_same _ _ _
  refine ⟨?_, ?_, ?_⟩
  · intro i
    by_cases hik : i = k
    · subst hik; right; simp
    · simpa [hstate i hik] using h.line i
  · intro i j hij hi
    have hik : i ≠ k := by
      intro e; subst e; simp at hi
    simp only [hstate i hik] at hi
    by_cases hjk : j = k
    · subst hjk
      exfalso
      rcases hc with ⟨h1, h2, _⟩ | ⟨_, h2, _⟩
      · have hj := h.suffix i j hij hi
        have e1 := h.sentinel i hi
        have e2 := h.sentinel j hj
        exact h2 i hij (by rw [e1, ← h1, e2])
      · rcases h2 with ⟨_, hl⟩ | ⟨hfull, _⟩
        · exact hl i hij hi
        · exact hfull i hi
    · simp only [hstate j hjk]
      exact h.suffix i j hij hi
  · intro i j hi hj hij
    by_cases hik : i = k <;> by_cases hjk : j = k
    · rw [hik, hjk]
    · exfalso
      subst hik
      simp only [hk, hstate j hjk] at hij hj
      rcases hc with ⟨h1, h2, _⟩ | ⟨h1, _, _⟩
      · by_cases hki : (node.cache i).state = cacheLineState.INVALID
        · have hlt : i < j := by
            rcases lt_trichotomy i j with hlt | heq | hgt
            · exact hlt
            · exact absurd heq.symm hjk
            · exact absurd hij.symm (h2 j hgt)
          exact hj (h.suffix i j hlt hki)
        · exact hjk (h.unique j i hj hki (by rw [← hij, h1]))
      · exact h1 j hij.symm
    · exfalso
      subst hjk
      simp only [hk, hstate i hik] at hij hi
      rcases hc with ⟨h1, h2, _⟩ | ⟨h1, _, _⟩
      · by_cases hkj : (node.cache j).state = cacheLineState.INVALID
        · have hlt : j < i := by
            rcases lt_trichotomy j i with hlt | heq | hgt
            · exact hlt
            · exact absurd heq.symm hik
            · exact absurd hij (h2 i hgt)
          exact hi (h.suffix j i hlt hkj)
        · exact hik (h.unique i j hi hkj (by rw [hij, h1]))
      · exact h1 i hij
    · simp only [hstate i hik, hstate j hjk] at hi hj hij
      exact h.unique i j hi hj hij

/-- Every reachable node has a cache of that structure. -/
theorem Reachable.shape {node : processorNode} (h : Reachable node) : CacheShape node := by
  induction h with
  | init fopen sscanf threadId node₀ dirName node hinit =>
    have hall := (initializeProcessor_post fopen sscanf threadId node₀ dirName node hinit).1
    refine ⟨fun i => Or.inl (hall i), ?_, ?_⟩
    · intro i j _ _
      rw [hall j]; rfl
    · intro i j hi _ _
      rw [hall i] at hi
      exact absurd rfl hi
  | write processorId node a v node' out _ _ _ hw ih =>
    exact ih.write processorId a v node' out hw

theorem sentinelNode_reachable : Reachable sentinelNode :=
  Reachable.write 0 bootNode 0xFF 7 sentinelNode [Output.cacheHit 0 0 7] bootNode_reachable
    (by decide) (by decide) rfl

/-- A write leaves no line INVALID that was not INVALID before. -/
theorem handleCacheWrite_state (processorId : Int) (node node' : processorNode) (a v : byte)
    (out : List Output) (hw : handleCacheWrite processorId node a v = some (node', out)) :
    ∀ i, (node.cache i).state ≠ cacheLineState.INVALID →
      (node'.cache i).state ≠ cacheLineState.INVALID := by
  obtain ⟨k, hnode, _⟩ := handleCacheWrite_some processorId node node' a v out hw
  subst hnode
  intro i hi
  by_cases hik : i = k
  · subst hik; simp
  · simpa [Function.update_noteq hik] using hi

theorem oneLineNode_reachable : Reachable oneLineNode :=
  Reachable.write 0 bootNode 1 10 oneLineNode [Output.cacheMiss 0 0 1 10] bootNode_reachable
    (by decide) (by decide) rfl

theorem twoLinesNode_reachable : Reachable twoLinesNode :=
  Reachable.write 0 oneLineNode 2 20 twoLinesNode [Output.cacheMiss 0 1 2 20]
    oneLineNode_reachable (by decide) (by decide) rfl

theorem threeLinesNode_write :
    handleCacheWrite 0 twoLinesNode 3 30 = some (threeLinesNode, [Output.cacheMiss 0 2 3 30]) :=
  rfl

/-- In a reachable node the lookup of an address finds a line exactly when
the address is held by a line that is not INVALID, or is the sentinel `0xFF`
while some line is INVALID. -/
theorem Reachable.lookup_finds_iff {node : processorNode} (h : Reachable node) (a : byte) :
    (findCacheLineIndex node a).2 ≠ -1 ↔
      ((∃ i, (node.cache i).state ≠ cacheLineState.INVALID ∧ (node.cache i).address = a) ∨
        (a = 0xFF ∧ ∃ i, (node.cache i).state = cacheLineState.INVALID)) := by
  have hs := h.shape
  rw [ne_eq, findCacheLineIndex_eq_neg_one]
  constructor
  · intro hne
    obtain ⟨i, hi⟩ : ∃ i, (node.cache i).address = a := by
      by_contra hcon
      exact hne (fun j hj => hcon ⟨j, hj⟩)
    by_cases hinv : (node.cache i).state = cacheLineState.INVALID
    · exact Or.inr ⟨by rw [← hi]; exact hs.sentinel i hinv, i, hinv⟩
    · exact Or.inl ⟨i, hinv, hi⟩
  · rintro (⟨i, _, hi⟩ | ⟨ha, i, hi⟩) hall
    · exact hall i hi
    · exact hall i (by rw [ha]; exact hs.sentinel i hi)

theorem threeLinesNode_reachable : Reachable threeLinesNode :=
  Reachable.write 0 twoLinesNode 3 30 threeLinesNode [Output.cacheMiss 0 2 3 30]
    twoLinesNode_reachable (by decide) (by decide) rfl

theorem fourLinesNode_reachable : Reachable fourLinesNode :=
  Reachable.write 0 threeLinesNode 4 40 fourLinesNode [Output.cacheMiss 0 3 4 40]
    threeLinesNode_reachable (by decide) (by decide) rfl

theorem evictedOnceNode_reachable : Reachable evictedOnceNode :=
  Reachable.write 0 fourLinesNode 5 50 evictedOnceNode [Output.cacheMiss 0 0 5 50]
    fourLinesNode_reachable (by decide) (by decide) rfl

/-! ## Auxiliary facts on the frame of the core and on the program -/

/-- The execution loop changes nothing but the cache. -/
theorem executeInstructionLoop_frame (processorId : Int) :
    ∀ (fuel : Nat) (i : Int) (node : processorNode) (out : List Output)
      (r : processorNode × List Output),
      executeInstructionLoop processorId fuel i node out = some r →
      r.1.memory = node.memory ∧ r.1.directory = node.directory ∧
      r.1.instructions = node.instructions ∧
      r.1.instructionCount = node.instructionCount := by
  intro fuel
  induction fuel with
  | zero =>
    intro i node out r h
    simp [executeInstructionLoop] at h
  | succ fuel ih =>
    intro i node out r h
    unfold executeInstructionLoop at h
    split_ifs at h with hlt
    · cases hs : instructionSlot i with
      | none => simp [hs] at h
      | some k =>
        simp only [hs, Option.some_bind] at h
        split_ifs at h with hw
        · obtain ⟨node₁, out₁, hw₁, f1, f2, f3, f4⟩ :=
            handleCacheWrite_frame processorId node (node.instructions k).address
              (node.instructions k).value
          rw [hw₁] at h
          simp only [Option.some_bind] at h
          obtain ⟨g1, g2, g3, g4⟩ := ih _ _ _ _ h
          exact ⟨g1.trans f1, g2.trans f2, g3.trans f3, g4.trans f4⟩
        · exact ih _ _ _ _ h
    · simp only [Option.some.injEq] at h
      subst h
      exact ⟨rfl, rfl, rfl, rfl⟩

/-- The execution engine returns when `instructionCount` fits the array. -/
theorem executeInstruction_returns (processorId : Int) (node : processorNode)
    (h : node.instructionCount ≤ (MAX_INSTR_NUM : Int)) :
    ∃ (node' : processorNode) (out : List Output),
      executeInstruction processorId node = some (node', out) := by
  obtain ⟨node', out, h1, _⟩ :=
    executeInstructionLoop_spec processorId node.instructions node.instructionCount h
      (node.instructionCount.toNat + 1) 0 node [] rfl rfl (by omega) (by omega)
  exact ⟨node', out, h1⟩

theorem readInstructions_count (sscanf : List Char → instruction → instruction)
    (file : List (List Char)) (node : processorNode)
    (h : node.instructionCount ≤ (MAX_INSTR_NUM : Int)) :
    (readInstructions sscanf file node).instructionCount ≤ (MAX_INSTR_NUM : Int) := by
  induction file generalizing node with
  | nil => exact h
  | cons line file ih =>
    unfold readInstructions
    split_ifs with h1 h2
    · apply ih
      simp only [MAX_INSTR_NUM, Nat.cast_ofNat] at h1 ⊢
      omega
    · exact ih node h
    · exact h

/-- A successful initialisation leaves an `instructionCount` that fits the array. -/
theorem initializeProcessor_count (fopen : String → Option (List (List Char)))
    (sscanf : List Char → instruction → instruction)
    (threadId : Int) (node : processorNode) (dirName : String) (node' : processorNode)
    (h : initializeProcessor fopen sscanf threadId node dirName = Except.ok node') :
    node'.instructionCount ≤ (MAX_INSTR_NUM : Int) := by
  unfold initializeProcessor at h
  simp only at h
  split at h
  · exact absurd h (by simp)
  · simp only [Except.ok.injEq] at h
    subst h
    apply readInstructions_count
    simp

theorem initializeProcessor_fails (fopen : String → Option (List (List Char)))
    (sscanf : List Char → instruction → instruction)
    (threadId : Int) (node : processorNode) (dirName : String)
    (h : fopen (instructionFileName dirName threadId) = none) :
    initializeProcessor fopen sscanf threadId node dirName = Except.error EXIT_FAILURE := by
  unfold initializeProcessor
  simp only [h]

/-- The initialisation loop fails when one of its files does not open. -/
theorem initializeAll_fails (fopen : String → Option (List (List Char)))
    (sscanf : List Char → instruction → instruction) (testDir : String)
    (l : List (Fin NUM_PROCS)) (processors : Fin NUM_PROCS → processorNode)
    (h : ∃ i ∈ l, fopen (instructionFileName testDir (i.val : Int)) = none) :
    initializeAll fopen sscanf testDir l processors = Except.error EXIT_FAILURE := by
  induction l generalizing processors with
  | nil => simp at h
  | cons i l ih =>
    unfold initializeAll
    cases hf : fopen (instructionFileName testDir (i.val : Int)) with
    | none =>
      rw [initializeProcessor_fails fopen sscanf _ _ _ hf]
    | some file =>
      obtain ⟨node', hn⟩ :=
        initializeProcessor_opens fopen sscanf (i.val : Int) (processors i) testDir file hf
      rw [hn]
      simp only
      apply ih
      obtain ⟨j, hj, hjf⟩ := h
      rcases List.mem_cons.1 hj with e | hmem
      · subst e; rw [hf] at hjf; exact absurd hjf (by simp)
      · exact ⟨j, hmem, hjf⟩

/-- The initialisation loop succeeds when all its files open, and every node
it has initialised has an `instructionCount` that fits the array. -/
theorem initializeAll_succeeds (fopen : String → Option (List (List Char)))
    (sscanf : List Char → instruction → instruction) (testDir : String)
    (l : List (Fin NUM_PROCS)) (processors : Fin NUM_PROCS → processorNode)
    (h : ∀ i ∈ l, ∃ file, fopen (instructionFileName testDir (i.val : Int)) = some file) :
    ∃ processors', initializeAll fopen sscanf testDir l processors = Except.ok processors' ∧
      (∀ i, i ∈ l → (processors' i).instructionCount ≤ (MAX_INSTR_NUM : Int)) ∧
      (∀ i, i ∉ l → processors' i = processors i) := by
  induction l generalizing processors with
  | nil => exact ⟨processors, rfl, by simp, fun _ _ => rfl⟩
  | cons i l ih =>
    obtain ⟨file, hf⟩ := h i (List.mem_cons_self _ _)
    obtain ⟨node', hn⟩ :=
      initializeProcessor_opens fopen sscanf (i.val : Int) (processors i) testDir file hf
    obtain ⟨processors', h1, h2, h3⟩ := ih (Function.update processors i node')
      (fun j hj => h j (List.mem_cons_of_mem _ hj))
    refine ⟨processors', ?_, ?_, ?_⟩
    · unfold initializeAll
      rw [hn]
      exact h1
    · intro j hj
      by_cases hjl : j ∈ l
      · exact h2 j hjl
      · rcases List.mem_cons.1 hj with e | hmem
        · subst e
          rw [h3 j hjl, Function.update_same]
          exact initializeProcessor_count fopen sscanf _ _ _ _ hn
        · exact absurd hmem hjl
    · intro j hj
      have hji : j ≠ i := fun e => hj (e ▸ List.mem_cons_self _ _)
      have hjl : j ∉ l := fun e => hj (List.mem_cons_of_mem _ e)
      rw [h3 j hjl, Function.update_noteq hji]

/-- The execution loop over a list of distinct processors returns, and gives
at every processor of the list the node that the execution engine gives from
the node of that processor, the other nodes being as before. -/
theorem executeAll_spec (l : List (Fin NUM_PROCS)) (hl : l.Nodup)
    (processors : Fin NUM_PROCS → processorNode) (out : List Output)
    (h : ∀ i, (processors i).instructionCount ≤ (MAX_INSTR_NUM : Int)) :
    ∃ (final : Fin NUM_PROCS → processorNode) (out' : List Output),
      executeAll l processors out = some (final, out') ∧
      (∀ i, i ∈ l → ∃ o, executeInstruction (i.val : Int) (processors i) = some (final i, o)) ∧
      (∀ i, i ∉ l → final i = processors i) := by
  induction l generalizing processors out with
  | nil => exact ⟨processors, out, rfl, by simp, fun _ _ => rfl⟩
  | cons i l ih =>
    have hil : i ∉ l := (List.nodup_cons.1 hl).1
    obtain ⟨n, o, he⟩ := executeInstruction_returns (i.val : Int) (processors i) (h i)
    have hframe := executeInstructionLoop_frame (i.val : Int) _ _ _ _ _ he
    obtain ⟨final, out', h1, h2, h3⟩ := ih (List.nodup_cons.1 hl).2
      (Function.update processors i n) (out ++ o) (by
        intro j
        by_cases hji : j = i
        · subst hji
          rw [Function.update_same, hframe.2.2.2]
          exact h j
        · rw [Function.update_noteq hji]
          exact h j)
    refine ⟨final, out', ?_, ?_, ?_⟩
    · unfold executeAll
      rw [he]
      exact h1
    · intro j hj
      rcases List.mem_cons.1 hj with e | hmem
      · subst e
        rw [h3 j hil, Function.update_same]
        exact ⟨o, he⟩
      · have hji : j ≠ i := fun e => hil (e ▸ hmem)
        obtain ⟨o', ho'⟩ := h2 j hmem
        rw [Function.update_noteq hji] at ho'
        exact ⟨o', ho'⟩
    · intro j hj
      have hji : j ≠ i := fun e => hj (e ▸ List.mem_cons_self _ _)
      have hjl : j ∉ l := fun e => hj (List.mem_cons_of_mem _ e)
      rw [h3 j hjl, Function.update_noteq hji]

/-! ## Auxiliary facts on the addresses that a stream leaves in the cache -/

/-- After the writes of a list of instructions, a line is as before or holds
the address of a WRITE instruction of the list. -/
theorem applyWrites_lines (processorId : Int) (l : List instruction)
    (node node' : processorNode) (h : applyWrites processorId l node = some node') :
    ∀ i, node'.cache i = node.cache i ∨
      ∃ instr ∈ l, instr.type = 'W'.toNat ∧ (node'.cache i).address = instr.address := by
  induction l generalizing node with
  | nil =>
    intro i
    simp only [applyWrites, Option.some.injEq] at h
    subst h
    exact Or.inl rfl
  | cons x l ih =>
    intro i
    simp only [applyWrites] at h
    split_ifs at h with hw
    · cases hm : handleCacheWrite processorId node x.address x.value with
      | none => simp [hm] at h
      | some r =>
        obtain ⟨mid, o⟩ := r
        simp only [hm, Option.some_bind] at h
        obtain ⟨k, hmid, _⟩ := handleCacheWrite_some processorId node mid x.address x.value o hm
        rcases ih mid h i with h1 | ⟨instr, hin, ht, ha⟩
        · by_cases hik : i = k
          · right
            refine ⟨x, List.mem_cons_self _ _, hw, ?_⟩
            rw [h1, hmid, hik]
            simp
          · left
            rw [h1, hmid]
            simp [Function.update_noteq hik]
        · exact Or.inr ⟨instr, List.mem_cons_of_mem _ hin, ht, ha⟩
    · rcases ih node h i with h1 | ⟨instr, hin, ht, ha⟩
      · exact Or.inl h1
      · exact Or.inr ⟨instr, List.mem_cons_of_mem _ hin, ht, ha⟩

/-- The execution engine, when `instructionCount` fits the array, returns the
node that the successive writes of the stream give. -/
theorem executeInstruction_applyWrites (processorId : Int) (node : processorNode)
    (h : node.instructionCount ≤ (MAX_INSTR_NUM : Int)) :
    ∃ (node' : processorNode) (out : List Output),
      executeInstruction processorId node = some (node', out) ∧
      applyWrites processorId (instructionStream node) node = some node' := by
  obtain ⟨node', out, h1, h2, _⟩ :=
    executeInstructionLoop_spec processorId node.instructions node.instructionCount h
      (node.instructionCount.toNat + 1) 0 node [] rfl rfl (by omega) (by omega)
  exact ⟨node', out, h1, by simpa [instructionStream] using h2⟩

theorem farNode_initialised :
    initializeProcessor (fun _ => some [['W', ' ', '2', '0', ' ', '1']])
      (fun _ _ => { type := 'W'.toNat, address := 0x20, value := 1 }) 0 emptyNode "suite" =
      Except.ok farNode := rfl

/-! ## Auxiliary facts on the occupancy of the cache -/

theorem residentCount_eq (node : processorNode) :
    residentCount node =
      (if (node.cache 0).state = cacheLineState.INVALID then 0 else 1) +
      (if (node.cache 1).state = cacheLineState.INVALID then 0 else 1) +
      (if (node.cache 2).state = cacheLineState.INVALID then 0 else 1) +
      (if (node.cache 3).state = cacheLineState.INVALID then 0 else 1) := by
  have h4 : List.finRange CACHE_SIZE = [0, 1, 2, 3] := by decide
  unfold residentCount
  rw [h4]
  by_cases h0 : (node.cache 0).state = cacheLineState.INVALID <;>
    by_cases h1 : (node.cache 1).state = cacheLineState.INVALID <;>
    by_cases h2 : (node.cache 2).state = cacheLineState.INVALID <;>
    by_cases h3 : (node.cache 3).state = cacheLineState.INVALID <;>
    simp [List.filter, h0, h1, h2, h3]

theorem residentCount_full (node : processorNode)
    (h : ∀ i, (node.cache i).state ≠ cacheLineState.INVALID) : residentCount node = 4 := by
  rw [residentCount_eq]
  simp [h 0, h 1, h 2, h 3]

theorem residentCount_full_iff (node : processorNode) (h : residentCount node = 4) :
    ∀ i, (node.cache i).state ≠ cacheLineState.INVALID := by
  rw [residentCount_eq] at h
  refine (forall_fin4 _).2 ⟨?_, ?_, ?_, ?_⟩ <;> intro hi <;> rw [hi] at h <;>
    simp only [if_true] at h <;> split_ifs at h <;> omega

theorem residentCount_empty (node : processorNode)
    (h : ∀ i, (node.cache i).state = cacheLineState.INVALID) : residentCount node = 0 := by
  rw [residentCount_eq]
  simp [h 0, h 1, h 2, h 3]

/-- The number of lines that are not INVALID after line `k` was set to a
line that is not INVALID. -/
theorem residentCount_update (node : processorNode) (k : Fin CACHE_SIZE) (line : cacheLine)
    (hl : line.state ≠ cacheLineState.INVALID) :
    residentCount { node with cache := Function.update node.cache k line } =
      residentCount node + (if (node.cache k).state = cacheLineState.INVALID then 1 else 0) := by
  rw [residentCount_eq, residentCount_eq]
  revert k
  refine (forall_fin4 _).2 ⟨?_, ?_, ?_, ?_⟩ <;>
    simp [Function.update, hl] <;> split_ifs <;> omega

theorem writtenAddresses_concat_write (l : List instruction) (x : instruction)
    (hw : x.type = 'W'.toNat) :
    writtenAddresses (l ++ [x]) = writtenAddresses l ++ [x.address] := by
  simp [writtenAddresses, List.filter_append, hw]

theorem writtenAddresses_concat_other (l : List instruction) (x : instruction)
    (hw : x.type ≠ 'W'.toNat) :
    writtenAddresses (l ++ [x]) = writtenAddresses l := by
  have hw87 : ¬ x.type = 87 := by simpa using hw
  simp [writtenAddresses, List.filter_append, hw87]

theorem distinctWrites_concat_old (l : List instruction) (x : instruction)
    (hw : x.type = 'W'.toNat) (hmem : x.address ∈ writtenAddresses l) :
    distinctWrites (l ++ [x]) = distinctWrites l := by
  unfold distinctWrites
  rw [← List.card_toFinset, ← List.card_toFinset, writtenAddresses_concat_write l x hw]
  congr 1
  ext b
  simp only [List.mem_toFinset, List.mem_append, List.mem_singleton]
  constructor
  · rintro (h | h)
    · exact h
    · rw [h]; exact hmem
  · exact Or.inl

theorem distinctWrites_concat_new (l : List instruction) (x : instruction)
    (hw : x.type = 'W'.toNat) (hmem : x.address ∉ writtenAddresses l) :
    distinctWrites (l ++ [x]) = distinctWrites l + 1 := by
  unfold distinctWrites
  rw [← List.card_toFinset, ← List.card_toFinset, writtenAddresses_concat_write l x hw]
  have hins : (writtenAddresses l ++ [x.address]).toFinset =
      insert x.address (writtenAddresses l).toFinset := by
    ext b
    simp only [List.mem_toFinset, List.mem_append, List.mem_singleton, Finset.mem_insert]
    exact or_comm
  rw [hins, Finset.card_insert_of_not_mem (by simpa using hmem)]

theorem distinctWrites_concat_other (l : List instruction) (x : instruction)
    (hw : x.type ≠ 'W'.toNat) :
    distinctWrites (l ++ [x]) = distinctWrites l := by
  unfold distinctWrites
  rw [writtenAddresses_concat_other l x hw]

theorem lastWrittenValue_concat_write (l : List instruction) (x : instruction)
    (hw : x.type = 'W'.toNat) (b : byte) :
    lastWrittenValue (l ++ [x]) b =
      if x.address = b then some x.value else lastWrittenValue l b := by
  unfold lastWrittenValue
  by_cases hb : x.address = b
  · simp [List.filter_append, hw, hb]
  · simp [List.filter_append, hw, hb]

theorem lastWrittenValue_concat_other (l : List instruction) (x : instruction)
    (hw : x.type ≠ 'W'.toNat) (b : byte) :
    lastWrittenValue (l ++ [x]) b = lastWrittenValue l b := by
  have hw87 : ¬ x.type = 87 := by simpa using hw
  unfold lastWrittenValue
  simp [List.filter_append, hw87]

theorem Occupancy.skip {l : List instruction} {node : processorNode} (h : Occupancy l node)
    (x : instruction) (hw : x.type ≠ 'W'.toNat) : Occupancy (l ++ [x]) node := by
  have hd := distinctWrites_concat_other l x hw
  have ha := writtenAddresses_concat_other l x hw
  refine ⟨h.shape, ?_, ?_, ?_, ?_⟩
  · rw [hd, ha]; exact h.resident
  · rw [hd]
    intro h4 i hi
    rw [lastWrittenValue_concat_other l x hw]
    exact h.values h4 i hi
  · rw [hd]; exact h.full
  · rw [hd]; exact h.count

/-- A write of the handler keeps the relation of the cache to the stream. -/
theorem Occupancy.step {l : List instruction} {mid : processorNode} (h : Occupancy l mid)
    (processorId : Int) (x : instruction) (hw : x.type = 'W'.toNat)
    (node' : processorNode) (out : List Output)
    (hstep : handleCacheWrite processorId mid x.address x.value = some (node', out)) :
    Occupancy (l ++ [x]) node' := by
  have hshape' := h.shape.write processorId x.address x.value node' out hstep
  have hstate := handleCacheWrite_state processorId mid node' x.address x.value out hstep
  obtain ⟨k, hnode, hc⟩ :=
    handleCacheWrite_some processorId mid node' x.address x.value out hstep
  have hother : ∀ i, i ≠ k → node'.cache i = mid.cache i := by
    intro i hi
    rw [hnode]
    exact Function.update_noteq hi _ _
  have hkline : node'.cache k =
      { address := x.address, value := x.value, state := cacheLineState.MODIFIED } := by
    rw [hnode]
    exact Function.update_same _ _ _
  have hknew : (node'.cache k).state ≠ cacheLineState.INVALID := by
    rw [hkline]; simp
  have hcount : residentCount node' = residentCount mid +
      (if (mid.cache k).state = cacheLineState.INVALID then 1 else 0) := by
    rw [hnode]
    exact residentCount_update mid k _ (by simp)
  have hlast := lastWrittenValue_concat_write l x hw
  have haddr := writtenAddresses_concat_write l x hw
  by_cases hmem : x.address ∈ writtenAddresses l
  · -- the address was written before
    have hd := distinctWrites_concat_old l x hw hmem
    by_cases hd4 : distinctWrites l ≤ 4
    · obtain ⟨j, hj, hja⟩ := (h.resident hd4 x.address).1 hmem
      have hhit : (mid.cache k).address = x.address ∧
          ∀ i, i < k → (mid.cache i).address ≠ x.address := by
        rcases hc with ⟨h1, h2, _⟩ | ⟨h1, _, _⟩
        · exact ⟨h1, h2⟩
        · exact absurd hja (h1 j)
      have hkold : (mid.cache k).state ≠ cacheLineState.INVALID := by
        intro hki
        rcases lt_trichotomy k j with hlt | heq | hgt
        · exact hj (h.shape.suffix k j hlt hki)
        · rw [heq] at hki; exact hj hki
        · exact hhit.2 j hgt hja
      have hsame : ∀ i, ((node'.cache i).state ≠ cacheLineState.INVALID ↔
          (mid.cache i).state ≠ cacheLineState.INVALID) ∧
          (node'.cache i).address = (mid.cache i).address := by
        intro i
        by_cases hik : i = k
        · rw [hik, hkline]
          exact ⟨⟨fun _ => hkold, fun _ => by simp⟩, hhit.1.symm⟩
        · rw [hother i hik]
          exact ⟨Iff.rfl, rfl⟩
      refine ⟨hshape', ?_, ?_, ?_, ?_⟩
      · intro _ b
        rw [haddr]
        constructor
        · intro hb
          have hb' : b ∈ writtenAddresses l := by
            rcases List.mem_append.1 hb with hb | hb
            · exact hb
            · rw [List.mem_singleton.1 hb]; exact hmem
          obtain ⟨i, hi, hia⟩ := (h.resident hd4 b).1 hb'
          exact ⟨i, (hsame i).1.2 hi, (hsame i).2.trans hia⟩
        · rintro ⟨i, hi, hia⟩
          exact List.mem_append_left _
            ((h.resident hd4 b).2 ⟨i, (hsame i).1.1 hi, (hsame i).2.symm.trans hia⟩)
      · intro _ i hi
        rw [hlast]
        by_cases hik : i = k
        · rw [hik, hkline]
          simp
        · have hne : x.address ≠ (node'.cache i).address := by
            intro e
            rw [hother i hik] at e hi
            exact hik (h.shape.unique i k hi hkold (by rw [← e, hhit.1]))
          rw [if_neg hne, hother i hik]
          rw [hother i hik] at hi
          exact h.values hd4 i hi
      · rw [hd]
        exact fun h4 i => hstate i (h.full h4 i)
      · rw [hd, hcount, if_neg hkold]
        exact h.count
    · have h4 : 4 ≤ distinctWrites l := by omega
      have hfull' : ∀ i, (node'.cache i).state ≠ cacheLineState.INVALID :=
        fun i => hstate i (h.full h4 i)
      refine ⟨hshape', ?_, ?_, fun _ => hfull', ?_⟩
      · rw [hd]; intro h'; exact absurd h' hd4
      · rw [hd]; intro h'; exact absurd h' hd4
      · rw [hd, residentCount_full node' hfull']
        omega
  · -- the address is written for the first time
    have hd := distinctWrites_concat_new l x hw hmem
    by_cases hd3 : distinctWrites l + 1 ≤ 4
    · have hd4 : distinctWrites l ≤ 4 := by omega
      have hnot : ∀ j, (mid.cache j).state ≠ cacheLineState.INVALID →
          (mid.cache j).address ≠ x.address := by
        intro j hj e
        exact hmem ((h.resident hd4 x.address).2 ⟨j, hj, e⟩)
      have hcmid : residentCount mid = distinctWrites l := by
        rw [h.count]; omega
      have hkold : (mid.cache k).state = cacheLineState.INVALID := by
        rcases hc with ⟨h1, _, _⟩ | ⟨_, h2, _⟩
        · by_contra hne
          exact hnot k hne h1
        · rcases h2 with ⟨hi, _⟩ | ⟨hfull, _⟩
          · exact hi
          · have := residentCount_full mid hfull
            omega
      have hcnew : residentCount node' = distinctWrites l + 1 := by
        rw [hcount, if_pos hkold, hcmid]
      refine ⟨hshape', ?_, ?_, ?_, ?_⟩
      · intro _ b
        rw [haddr]
        constructor
        · intro hb
          rcases List.mem_append.1 hb with hb | hb
          · obtain ⟨i, hi, hia⟩ := (h.resident hd4 b).1 hb
            have hik : i ≠ k := by
              intro e; rw [e] at hi; exact hi hkold
            exact ⟨i, by rw [hother i hik]; exact hi, by rw [hother i hik]; exact hia⟩
          · refine ⟨k, hknew, ?_⟩
            rw [hkline, List.mem_singleton.1 hb]
        · rintro ⟨i, hi, hia⟩
          by_cases hik : i = k
          · rw [hik, hkline] at hia
            rw [← hia]
            exact List.mem_append_right _ (List.mem_singleton.2 rfl)
          · rw [hother i hik] at hi hia
            exact List.mem_append_left _ ((h.resident hd4 b).2 ⟨i, hi, hia⟩)
      · intro _ i hi
        rw [hlast]
        by_cases hik : i = k
        · rw [hik, hkline]
          simp
        · rw [hother i hik] at hi ⊢
          rw [if_neg (fun e => hnot i hi e.symm)]
          exact h.values hd4 i hi
      · intro _
        apply residentCount_full_iff
        rw [hcnew]
        omega
      · rw [hd, hcnew]
        omega
    · have h4 : 4 ≤ distinctWrites l := by omega
      have hfull' : ∀ i, (node'.cache i).state ≠ cacheLineState.INVALID :=
        fun i => hstate i (h.full h4 i)
      refine ⟨hshape', ?_, ?_, fun _ => hfull', ?_⟩
      · rw [hd]; intro h'; exact absurd h' hd3
      · rw [hd]; intro h'; exact absurd h' hd3
      · rw [hd, residentCount_full node' hfull']
        omega

/-- The relation holds between the empty stream and the initialised cache. -/
theorem Occupancy.initial (node : processorNode) (hs : CacheShape node)
    (h : ∀ i, node.cache i = initialLine) : Occupancy [] node := by
  have hinv : ∀ i, (node.cache i).state = cacheLineState.INVALID := by
    intro i; rw [h i]; rfl
  refine ⟨hs, ?_, ?_, ?_, ?_⟩
  · intro _ a
    constructor
    · intro ha
      simp [writtenAddresses] at ha
    · rintro ⟨i, hi, _⟩
      exact absurd (hinv i) hi
  · intro _ i hi
    exact absurd (hinv i) hi
  · intro h4
    simp [distinctWrites, writtenAddresses] at h4
  · rw [residentCount_empty node hinv]
    simp [distinctWrites, writtenAddresses]

/-- The relation holds between a stream and the node that its successive
writes give from the initialised cache. -/
theorem applyWrites_occupancy (processorId : Int) (node : processorNode)
    (hs : CacheShape node) (h : ∀ i, node.cache i = initialLine) :
    ∀ (l : List instruction) (node' : processorNode),
      applyWrites processorId l node = some node' → Occupancy l node' := by
  intro l
  induction l using List.reverseRecOn with
  | nil =>
    intro node' h'
    simp only [applyWrites, Option.some.injEq] at h'
    subst h'
    exact Occupancy.initial node hs h
  | append_singleton l x ih =>
    intro node' h'
    rw [applyWrites_append] at h'
    cases hm : applyWrites processorId l node with
    | none => simp [hm] at h'
    | some mid =>
      simp only [hm, Option.some_bind, applyWrites] at h'
      have hmid := ih mid hm
      split_ifs at h' with hw
      · cases hx : handleCacheWrite processorId mid x.address x.value with
        | none => simp [hx] at h'
        | some r =>
          obtain ⟨n, o⟩ := r
          simp only [hx, Option.some_bind, Option.some.injEq] at h'
          subst h'
          exact hmid.step processorId x hw n o hx
      · simp only [Option.some.injEq] at h'
        subst h'
        exact hmid.skip x hw

/-! ## Claims on a single write and on the lookup -/

/-- C1: in a reachable node whose lowest INVALID line is `k`, a write of `v`
to an address `a` that no line other than INVALID ones holds succeeds, makes
line `k` equal to `(a, v, MODIFIED)` and leaves every other line as it was.
The address is any byte, `0xFF` included. -/
theorem handleCacheWrite_fills_lowest_invalid (node : processorNode) (hr : Reachable node)
    (k : Fin CACHE_SIZE) (hk : (node.cache k).state = cacheLineState.INVALID)
    (hlow : ∀ j, j < k → (node.cache j).state ≠ cacheLineState.INVALID)
    (processorId : Int) (a v : byte)
    (ha : ∀ j, (node.cache j).state ≠ cacheLineState.INVALID → (node.cache j).address ≠ a) :
    ∃ (node' : processorNode) (out : List Output),
      handleCacheWrite processorId node a v = some (node', out) ∧
      node'.cache k = { address := a, value := v, state := cacheLineState.MODIFIED } ∧
      ∀ j : Fin CACHE_SIZE, j ≠ k → node'.cache j = node.cache j := by
  have hshape := hr.line_shape
  -- an INVALID line of a reachable node holds the sentinel address
  have hsent : ∀ j, (node.cache j).state = cacheLineState.INVALID →
      (node.cache j).address = 0xFF := by
    intro j hj
    rcases hshape j with h | h
    · rw [h]; rfl
    · rw [h] at hj; exact absurd hj (by decide)
  obtain ⟨k', hc⟩ := handleCacheWrite_cases processorId node a v
  have hkk : k' = k := by
    rcases hc with ⟨h1, h2, _⟩ | ⟨_, h2, _⟩
    · -- hit: the line found is INVALID, so `a` is the sentinel, which line `k` holds too
      have hinv : (node.cache k').state = cacheLineState.INVALID := by
        by_contra hne
        exact ha k' hne h1
      have haFF : a = 0xFF := by rw [← h1]; exact hsent k' hinv
      have hka : (node.cache k).address = a := by rw [haFF]; exact hsent k hk
      rcases lt_trichotomy k' k with hlt | heq | hgt
      · exact absurd hinv (hlow k' hlt)
      · exact heq
      · exact absurd hka (h2 k hgt)
    · rcases h2 with ⟨hi, hl⟩ | ⟨hfull, _⟩
      · rcases lt_trichotomy k' k with hlt | heq | hgt
        · exact absurd hi (hlow k' hlt)
        · exact heq
        · exact absurd hk (hl k hgt)
      · exact absurd hk (hfull k)
  subst hkk
  rcases hc with ⟨_, _, h3⟩ | ⟨_, _, h3⟩
  · refine ⟨_, _, h3, by simp, fun j hj => ?_⟩
    simp [Function.update_noteq hj]
  · refine ⟨_, _, h3, by simp, fun j hj => ?_⟩
    simp [Function.update_noteq hj]

/-- Witness of C1: the sentinel address `0xFF` written to the empty cache of
`bootNode`. -/
theorem handleCacheWrite_fills_lowest_invalid_witness :
    Reachable bootNode ∧
    (bootNode.cache 0).state = cacheLineState.INVALID ∧
    (∀ j, j < (0 : Fin CACHE_SIZE) → (bootNode.cache j).state ≠ cacheLineState.INVALID) ∧
    (∀ j, (bootNode.cache j).state ≠ cacheLineState.INVALID → (bootNode.cache j).address ≠ 0xFF) ∧
    ∃ (node' : processorNode) (out : List Output),
      handleCacheWrite 0 bootNode 0xFF 7 = some (node', out) ∧
      node'.cache 0 = { address := 0xFF, value := 7, state := cacheLineState.MODIFIED } ∧
      ∀ j : Fin CACHE_SIZE, j ≠ 0 → node'.cache j = bootNode.cache j :=
  ⟨bootNode_reachable, by decide, by decide, by decide,
    handleCacheWrite_fills_lowest_invalid bootNode bootNode_reachable 0 (by decide) (by decide)
      0 0xFF 7 (by decide)⟩

/-- C2: when the lookup of `a` returns an index and not `-1`, the write
succeeds, the line at that index keeps its address and gets value `v` and
state MODIFIED, and every other line is the same as before. -/
theorem handleCacheWrite_resident (processorId : Int) (node : processorNode) (a v : byte)
    (h : (findCacheLineIndex node a).2 ≠ -1) :
    ∃ (k : Fin CACHE_SIZE) (node' : processorNode) (out : List Output),
      (findCacheLineIndex node a).2 = (k.val : Int) ∧
      handleCacheWrite processorId node a v = some (node', out) ∧
      node'.cache k =
        { address := (node.cache k).address, value := v, state := cacheLineState.MODIFIED } ∧
      ∀ j : Fin CACHE_SIZE, j ≠ k → node'.cache j = node.cache j := by
  rcases findCacheLineIndex_range node a with hm | ⟨k, hk⟩
  · exact absurd hm h
  · refine ⟨k, _, _, hk, handleCacheWrite_hit processorId node a v k hk, ?_, ?_⟩
    · simp
    · intro j hj
      simp [Function.update_noteq hj]

/-- Witness of C2: address 3 is held by line 2 of `fullNode`. -/
theorem handleCacheWrite_resident_witness :
    (findCacheLineIndex fullNode 3).2 ≠ -1 ∧
    ∃ (k : Fin CACHE_SIZE) (node' : processorNode) (out : List Output),
      (findCacheLineIndex fullNode 3).2 = (k.val : Int) ∧
      handleCacheWrite 0 fullNode 3 99 = some (node', out) ∧
      node'.cache k =
        { address := (fullNode.cache k).address, value := 99, state := cacheLineState.MODIFIED } ∧
      ∀ j : Fin CACHE_SIZE, j ≠ k → node'.cache j = fullNode.cache j :=
  ⟨by decide, handleCacheWrite_resident 0 fullNode 3 99 (by decide)⟩

/-- C3: when no line is INVALID and no line has address `a`, the write
succeeds, line 0 becomes `(a, v, MODIFIED)` and lines 1, 2 and 3 are the same
as before. -/
theorem handleCacheWrite_full_miss (processorId : Int) (node : processorNode) (a v : byte)
    (hfull : ∀ j, (node.cache j).state ≠ cacheLineState.INVALID)
    (hmiss : ∀ j, (node.cache j).address ≠ a) :
    ∃ (node' : processorNode) (out : List Output),
      handleCacheWrite processorId node a v = some (node', out) ∧
      node'.cache 0 = { address := a, value := v, state := cacheLineState.MODIFIED } ∧
      node'.cache 1 = node.cache 1 ∧ node'.cache 2 = node.cache 2 ∧
      node'.cache 3 = node.cache 3 := by
  have h1 := (findCacheLineIndex_eq_neg_one node a).2 hmiss
  have h2 : (List.finRange CACHE_SIZE).find?
      (fun i => decide ((node.cache i).state = cacheLineState.INVALID)) = none := by
    rw [finRange_find_eq_none]
    intro j
    simpa using hfull j
  refine ⟨_, _, handleCacheWrite_miss_full processorId node a v h1 h2, ?_, ?_, ?_, ?_⟩ <;>
    simp [Function.update]

/-- Witness of C3: `fullNode` holds 1, 2, 3, 4 and address 9 is written. -/
theorem handleCacheWrite_full_miss_witness :
    (∀ j, (fullNode.cache j).state ≠ cacheLineState.INVALID) ∧
    (∀ j, (fullNode.cache j).address ≠ 9) ∧
    ∃ (node' : processorNode) (out : List Output),
      handleCacheWrite 0 fullNode 9 7 = some (node', out) ∧
      node'.cache 0 = { address := 9, value := 7, state := cacheLineState.MODIFIED } ∧
      node'.cache 1 = fullNode.cache 1 ∧ node'.cache 2 = fullNode.cache 2 ∧
      node'.cache 3 = fullNode.cache 3 :=
  ⟨by decide, by decide, handleCacheWrite_full_miss 0 fullNode 9 7 (by decide) (by decide)⟩

/-- C4: a write of `v` to `a` succeeds, and the same write applied to its
result succeeds and gives that result again. -/
theorem handleCacheWrite_idempotent (processorId : Int) (node : processorNode) (a v : byte) :
    ∃ (node₁ : processorNode) (out₁ out₂ : List Output),
      handleCacheWrite processorId node a v = some (node₁, out₁) ∧
      handleCacheWrite processorId node₁ a v = some (node₁, out₂) := by
  obtain ⟨k, h⟩ := handleCacheWrite_cases processorId node a v
  have hlow : ∀ j, j < k → (node.cache j).address ≠ a := by
    rcases h with ⟨_, h2, _⟩ | ⟨h1, _, _⟩
    · exact h2
    · exact fun j _ => h1 j
  have hfirst : ∃ out₁, handleCacheWrite processorId node a v =
      some ({ node with
              cache := Function.update node.cache k
                { address := a, value := v, state := cacheLineState.MODIFIED } }, out₁) := by
    rcases h with ⟨_, _, h3⟩ | ⟨_, _, h3⟩
    · exact ⟨_, h3⟩
    · exact ⟨_, h3⟩
  obtain ⟨out₁, h₁⟩ := hfirst
  refine ⟨_, out₁, [Output.cacheHit processorId (k.val : Int) v], h₁, ?_⟩
  rw [handleCacheWrite_hit processorId _ a v k (findCacheLineIndex_update node a v k hlow)]
  simp

/-- C8: the lookup returns the index `i` exactly when line `i` has the
address and no line below `i` has it, returns `-1` exactly when no line has
the address, returns nothing but `-1` or an index below `CACHE_SIZE`, and
gives back the node it received. -/
theorem findCacheLineIndex_contract (node : processorNode) (a : byte) :
    (∀ i : Fin CACHE_SIZE, (findCacheLineIndex node a).2 = (i.val : Int) ↔
        ((node.cache i).address = a ∧ ∀ j, j < i → (node.cache j).address ≠ a)) ∧
    ((findCacheLineIndex node a).2 = -1 ↔ ∀ j, (node.cache j).address ≠ a) ∧
    ((findCacheLineIndex node a).2 = -1 ∨
      (0 ≤ (findCacheLineIndex node a).2 ∧ (findCacheLineIndex node a).2 < 4)) ∧
    (findCacheLineIndex node a).1 = node := by
  refine ⟨fun i => findCacheLineIndex_eq_coe node a i, findCacheLineIndex_eq_neg_one node a,
    ?_, findCacheLineIndex_fst node a⟩
  rcases findCacheLineIndex_range node a with h | ⟨k, hk⟩
  · exact Or.inl h
  · right
    have hlt : k.val < 4 := k.isLt
    rw [hk]
    omega

/-- C9: every write succeeds; its result differs from the node before at no
index but the one it reports, which is below `CACHE_SIZE`; and a lookup of
`a` in the result returns that index, whose line is `(a, v, MODIFIED)`. -/
theorem handleCacheWrite_total (processorId : Int) (node : processorNode) (a v : byte) :
    ∃ (k : Fin CACHE_SIZE) (node' : processorNode) (out : List Output),
      handleCacheWrite processorId node a v = some (node', out) ∧
      (out = [Output.cacheHit processorId (k.val : Int) v] ∨
        out = [Output.cacheMiss processorId (k.val : Int) a v]) ∧
      (∀ j : Fin CACHE_SIZE, j ≠ k → node'.cache j = node.cache j) ∧
      (findCacheLineIndex node' a).2 = (k.val : Int) ∧
      node'.cache k = { address := a, value := v, state := cacheLineState.MODIFIED } := by
  obtain ⟨k, h⟩ := handleCacheWrite_cases processorId node a v
  have hlow : ∀ j, j < k → (node.cache j).address ≠ a := by
    rcases h with ⟨_, h2, _⟩ | ⟨h1, _, _⟩
    · exact h2
    · exact fun j _ => h1 j
  rcases h with ⟨_, _, h3⟩ | ⟨_, _, h3⟩
  · refine ⟨k, _, _, h3, Or.inl rfl, ?_, findCacheLineIndex_update node a v k hlow, ?_⟩
    · intro j hj; simp [Function.update_noteq hj]
    · simp
  · refine ⟨k, _, _, h3, Or.inr rfl, ?_, findCacheLineIndex_update node a v k hlow, ?_⟩
    · intro j hj; simp [Function.update_noteq hj]
    · simp

/-! ## Claims on the execution engine -/

/-- C5: from a node with the initialised cache whose stream is the five
writes to the addresses 1, 2, 3, 4, 5 (with any values), the first four
writes miss and fill the lines 0, 1, 2, 3, each INVALID until then; the
cache is then full and holds address 1 in line 0; the fifth write misses and
replaces line 0; the execution engine returns the node after these five
writes, whose lines are all MODIFIED and hold exactly the addresses
2, 3, 4, 5 (line 0 holds 5), address 1 being held by no line. -/
theorem executeInstruction_five_writes (processorId : Int) (node : processorNode)
    (v₁ v₂ v₃ v₄ v₅ : byte)
    (hcache : ∀ i, node.cache i =
      { address := 0xFF, value := 0, state := cacheLineState.INVALID })
    (hcount : node.instructionCount = 5)
    (h₁ : node.instructions 0 = { type := 'W'.toNat, address := 1, value := v₁ })
    (h₂ : node.instructions 1 = { type := 'W'.toNat, address := 2, value := v₂ })
    (h₃ : node.instructions 2 = { type := 'W'.toNat, address := 3, value := v₃ })
    (h₄ : node.instructions 3 = { type := 'W'.toNat, address := 4, value := v₄ })
    (h₅ : node.instructions 4 = { type := 'W'.toNat, address := 5, value := v₅ }) :
    ∃ (n₁ n₂ n₃ n₄ n₅ : processorNode) (out : List Output),
      handleCacheWrite processorId node 1 v₁ =
        some (n₁, [Output.cacheMiss processorId 0 1 v₁]) ∧
      (node.cache 0).state = cacheLineState.INVALID ∧
      handleCacheWrite processorId n₁ 2 v₂ =
        some (n₂, [Output.cacheMiss processorId 1 2 v₂]) ∧
      (n₁.cache 1).state = cacheLineState.INVALID ∧
      handleCacheWrite processorId n₂ 3 v₃ =
        some (n₃, [Output.cacheMiss processorId 2 3 v₃]) ∧
      (n₂.cache 2).state = cacheLineState.INVALID ∧
      handleCacheWrite processorId n₃ 4 v₄ =
        some (n₄, [Output.cacheMiss processorId 3 4 v₄]) ∧
      (n₃.cache 3).state = cacheLineState.INVALID ∧
      (∀ i, (n₄.cache i).state ≠ cacheLineState.INVALID) ∧
      n₄.cache 0 = { address := 1, value := v₁, state := cacheLineState.MODIFIED } ∧
      handleCacheWrite processorId n₄ 5 v₅ =
        some (n₅, [Output.cacheMiss processorId 0 5 v₅]) ∧
      executeInstruction processorId node = some (n₅, out) ∧
      n₅.cache 0 = { address := 5, value := v₅, state := cacheLineState.MODIFIED } ∧
      n₅.cache 1 = { address := 2, value := v₂, state := cacheLineState.MODIFIED } ∧
      n₅.cache 2 = { address := 3, value := v₃, state := cacheLineState.MODIFIED } ∧
      n₅.cache 3 = { address := 4, value := v₄, state := cacheLineState.MODIFIED } ∧
      (∀ i, (n₅.cache i).address ≠ 1) ∧
      (∀ a : byte, (∃ i, (n₅.cache i).address = a) ↔ (a = 2 ∨ a = 3 ∨ a = 4 ∨ a = 5)) := by
  let n₁ : processorNode := { node with
    cache := Function.update node.cache 0
      { address := 1, value := v₁, state := cacheLineState.MODIFIED } }
  let n₂ : processorNode := { n₁ with
    cache := Function.update n₁.cache 1
      { address := 2, value := v₂, state := cacheLineState.MODIFIED } }
  let n₃ : processorNode := { n₂ with
    cache := Function.update n₂.cache 2
      { address := 3, value := v₃, state := cacheLineState.MODIFIED } }
  let n₄ : processorNode := { n₃ with
    cache := Function.update n₃.cache 3
      { address := 4, value := v₄, state := cacheLineState.MODIFIED } }
  let n₅ : processorNode := { n₄ with
    cache := Function.update n₄.cache 0
      { address := 5, value := v₅, state := cacheLineState.MODIFIED } }
  have s₁ : handleCacheWrite processorId node 1 v₁ =
      some (n₁, [Output.cacheMiss processorId 0 1 v₁]) :=
    handleCacheWrite_miss_at processorId node 1 v₁ 0
      (by refine (forall_fin4 _).2 ⟨?_, ?_, ?_, ?_⟩ <;> simp [Function.update, hcache])
      (by simp [Function.update, hcache])
      (by refine (forall_fin4 _).2 ⟨?_, ?_, ?_, ?_⟩ <;> simp [Function.update, hcache])
  have s₂ : handleCacheWrite processorId n₁ 2 v₂ =
      some (n₂, [Output.cacheMiss processorId 1 2 v₂]) :=
    handleCacheWrite_miss_at processorId n₁ 2 v₂ 1
      (by refine (forall_fin4 _).2 ⟨?_, ?_, ?_, ?_⟩ <;> simp [n₁, Function.update, hcache])
      (by simp [n₁, Function.update, hcache])
      (by refine (forall_fin4 _).2 ⟨?_, ?_, ?_, ?_⟩ <;> simp [n₁, Function.update, hcache])
  have s₃ : handleCacheWrite processorId n₂ 3 v₃ =
      some (n₃, [Output.cacheMiss processorId 2 3 v₃]) :=
    handleCacheWrite_miss_at processorId n₂ 3 v₃ 2
      (by refine (forall_fin4 _).2 ⟨?_, ?_, ?_, ?_⟩ <;> simp [n₁, n₂, Function.update, hcache])
      (by simp [n₁, n₂, Function.update, hcache])
      (by refine (forall_fin4 _).2 ⟨?_, ?_, ?_, ?_⟩ <;> simp [n₁, n₂, Function.update, hcache])
  have s₄ : handleCacheWrite processorId n₃ 4 v₄ =
      some (n₄, [Output.cacheMiss processorId 3 4 v₄]) :=
    handleCacheWrite_miss_at processorId n₃ 4 v₄ 3
      (by refine (forall_fin4 _).2 ⟨?_, ?_, ?_, ?_⟩ <;>
        simp [n₁, n₂, n₃, Function.update, hcache])
      (by simp [n₁, n₂, n₃, Function.update, hcache])
      (by refine (forall_fin4 _).2 ⟨?_, ?_, ?_, ?_⟩ <;>
        simp [n₁, n₂, n₃, Function.update, hcache])
  have s₅ : handleCacheWrite processorId n₄ 5 v₅ =
      some (n₅, [Output.cacheMiss processorId 0 5 v₅]) :=
    handleCacheWrite_miss_at_zero processorId n₄ 5 v₅
      (by refine (forall_fin4 _).2 ⟨?_, ?_, ?_, ?_⟩ <;>
        simp [n₁, n₂, n₃, n₄, Function.update, hcache])
      (by refine (forall_fin4 _).2 ⟨?_, ?_, ?_, ?_⟩ <;>
        simp [n₁, n₂, n₃, n₄, Function.update, hcache])
  obtain ⟨n, out, he, ha, _⟩ :=
    executeInstructionLoop_spec processorId node.instructions node.instructionCount
      (by rw [hcount]; decide)
      (node.instructionCount.toNat + 1) 0 node [] rfl rfl (by omega) (by omega)
  simp only [List.drop_zero] at ha
  change applyWrites processorId (instructionStream node) node = some n at ha
  rw [instructionStream_five node hcount, h₁, h₂, h₃, h₄, h₅] at ha
  simp only [applyWrites, if_true, s₁, s₂, s₃, s₄, s₅, Option.some_bind, Option.some.injEq] at ha
  rw [← ha] at he
  refine ⟨n₁, n₂, n₃, n₄, n₅, out, s₁, by simp [hcache], s₂,
    by simp [n₁, Function.update, hcache], s₃, by simp [n₁, n₂, Function.update, hcache], s₄,
    by simp [n₁, n₂, n₃, Function.update, hcache], ?_, ?_, s₅, he, ?_, ?_, ?_, ?_, ?_, ?_⟩
  · refine (forall_fin4 _).2 ⟨?_, ?_, ?_, ?_⟩ <;>
      simp [n₁, n₂, n₃, n₄, Function.update, hcache]
  · simp [n₁, n₂, n₃, n₄, Function.update, hcache]
  · simp [n₁, n₂, n₃, n₄, n₅, Function.update, hcache]
  · simp [n₁, n₂, n₃, n₄, n₅, Function.update, hcache]
  · simp [n₁, n₂, n₃, n₄, n₅, Function.update, hcache]
  · simp [n₁, n₂, n₃, n₄, n₅, Function.update, hcache]
  · refine (forall_fin4 _).2 ⟨?_, ?_, ?_, ?_⟩ <;>
      simp [n₁, n₂, n₃, n₄, n₅, Function.update, hcache]
  · intro a
    constructor
    · rintro ⟨i, hi⟩
      revert i
      refine (forall_fin4 _).2 ⟨?_, ?_, ?_, ?_⟩ <;>
        simp [n₁, n₂, n₃, n₄, n₅, Function.update, hcache] <;> intro h <;> subst h <;> simp
    · rintro (h | h | h | h)
      · exact ⟨1, by simp [n₁, n₂, n₃, n₄, n₅, Function.update, hcache, h]⟩
      · exact ⟨2, by simp [n₁, n₂, n₃, n₄, n₅, Function.update, hcache, h]⟩
      · exact ⟨3, by simp [n₁, n₂, n₃, n₄, n₅, Function.update, hcache, h]⟩
      · exact ⟨0, by simp [n₁, n₂, n₃, n₄, n₅, Function.update, hcache, h]⟩

/-- Witness of C5: `scenarioNode`, with the values 10, 20, 30, 40, 50. -/
theorem executeInstruction_five_writes_witness :
    (∀ i, scenarioNode.cache i =
      { address := 0xFF, value := 0, state := cacheLineState.INVALID }) ∧
    scenarioNode.instructionCount = 5 ∧
    ∃ (n₁ n₂ n₃ n₄ n₅ : processorNode) (out : List Output),
      handleCacheWrite 0 scenarioNode 1 10 = some (n₁, [Output.cacheMiss 0 0 1 10]) ∧
      (scenarioNode.cache 0).state = cacheLineState.INVALID ∧
      handleCacheWrite 0 n₁ 2 20 = some (n₂, [Output.cacheMiss 0 1 2 20]) ∧
      (n₁.cache 1).state = cacheLineState.INVALID ∧
      handleCacheWrite 0 n₂ 3 30 = some (n₃, [Output.cacheMiss 0 2 3 30]) ∧
      (n₂.cache 2).state = cacheLineState.INVALID ∧
      handleCacheWrite 0 n₃ 4 40 = some (n₄, [Output.cacheMiss 0 3 4 40]) ∧
      (n₃.cache 3).state = cacheLineState.INVALID ∧
      (∀ i, (n₄.cache i).state ≠ cacheLineState.INVALID) ∧
      n₄.cache 0 = { address := 1, value := 10, state := cacheLineState.MODIFIED } ∧
      handleCacheWrite 0 n₄ 5 50 = some (n₅, [Output.cacheMiss 0 0 5 50]) ∧
      executeInstruction 0 scenarioNode = some (n₅, out) ∧
      n₅.cache 0 = { address := 5, value := 50, state := cacheLineState.MODIFIED } ∧
      n₅.cache 1 = { address := 2, value := 20, state := cacheLineState.MODIFIED } ∧
      n₅.cache 2 = { address := 3, value := 30, state := cacheLineState.MODIFIED } ∧
      n₅.cache 3 = { address := 4, value := 40, state := cacheLineState.MODIFIED } ∧
      (∀ i, (n₅.cache i).address ≠ 1) ∧
      (∀ a : byte, (∃ i, (n₅.cache i).address = a) ↔ (a = 2 ∨ a = 3 ∨ a = 4 ∨ a = 5)) :=
  ⟨by decide, rfl,
    executeInstruction_five_writes 0 scenarioNode 10 20 30 40 50 (by decide) rfl rfl rfl rfl
      rfl rfl⟩

/-- C6: for a node whose `instructionCount` is at most 32, the execution
engine returns, and its final node is the one obtained by applying the write
handler successively, in order, to the address and value of those of the
first `instructionCount` instructions whose type is `W`. -/
theorem executeInstruction_refines (processorId : Int) (node : processorNode)
    (h : node.instructionCount ≤ (MAX_INSTR_NUM : Int)) :
    ∃ (node' : processorNode) (out : List Output),
      executeInstruction processorId node = some (node', out) ∧
      applyWrites processorId (instructionStream node) node = some node' := by
  obtain ⟨node', out, h1, h2, _⟩ :=
    executeInstructionLoop_spec processorId node.instructions node.instructionCount h
      (node.instructionCount.toNat + 1) 0 node [] rfl rfl (by omega) (by omega)
  exact ⟨node', out, h1, by simpa [instructionStream] using h2⟩

/-- Witness of C6: the scenario stream with a READ in it, six instructions. -/
theorem executeInstruction_refines_witness :
    scenarioNodeWithRead.instructionCount ≤ (MAX_INSTR_NUM : Int) ∧
    ∃ (node' : processorNode) (out : List Output),
      executeInstruction 0 scenarioNodeWithRead = some (node', out) ∧
      applyWrites 0 (instructionStream scenarioNodeWithRead) scenarioNodeWithRead = some node' :=
  ⟨by decide, executeInstruction_refines 0 scenarioNodeWithRead (by decide)⟩

/-- C7: a READ instruction inserted at any position of the stream of a node
leaves the final cache of the execution the same; and the execution of a
stream of READ instructions only returns the node it started from. -/
theorem executeInstruction_read_noop (processorId : Int) :
    (∀ (node₁ node₂ : processorNode) (front back : List instruction) (a v : byte),
      node₁.instructionCount ≤ (MAX_INSTR_NUM : Int) →
      node₂.instructionCount ≤ (MAX_INSTR_NUM : Int) →
      node₂.cache = node₁.cache →
      instructionStream node₁ = front ++ back →
      instructionStream node₂ =
        front ++ { type := 'R'.toNat, address := a, value := v } :: back →
      ∃ (r₁ r₂ : processorNode × List Output),
        executeInstruction processorId node₁ = some r₁ ∧
        executeInstruction processorId node₂ = some r₂ ∧
        r₂.1.cache = r₁.1.cache) ∧
    (∀ node : processorNode,
      node.instructionCount ≤ (MAX_INSTR_NUM : Int) →
      (∀ instr ∈ instructionStream node, instr.type = 'R'.toNat) →
      ∃ out : List Output, executeInstruction processorId node = some (node, out)) := by
  constructor
  · intro node₁ node₂ front back a v hc₁ hc₂ hcache hs₁ hs₂
    obtain ⟨n₁, o₁, he₁, ha₁, _⟩ :=
      executeInstructionLoop_spec processorId node₁.instructions node₁.instructionCount hc₁
        (node₁.instructionCount.toNat + 1) 0 node₁ [] rfl rfl (by omega) (by omega)
    obtain ⟨n₂, o₂, he₂, ha₂, _⟩ :=
      executeInstructionLoop_spec processorId node₂.instructions node₂.instructionCount hc₂
        (node₂.instructionCount.toNat + 1) 0 node₂ [] rfl rfl (by omega) (by omega)
    refine ⟨(n₁, o₁), (n₂, o₂), he₁, he₂, ?_⟩
    simp only [List.drop_zero] at ha₁ ha₂
    change applyWrites processorId (instructionStream node₁) node₁ = some n₁ at ha₁
    change applyWrites processorId (instructionStream node₂) node₂ = some n₂ at ha₂
    have hread : ∀ n : processorNode,
        applyWrites processorId ({ type := 'R'.toNat, address := a, value := v } :: back) n =
          applyWrites processorId back n := by
      intro n
      simp only [applyWrites]
      rw [if_neg (by decide)]
    have hsame : applyWrites processorId (instructionStream node₂) node₂ =
        applyWrites processorId (instructionStream node₁) node₂ := by
      rw [hs₁, hs₂, applyWrites_append, applyWrites_append, funext hread]
    rw [hsame, applyWrites_congr processorId _ node₁ node₂ hcache, ha₁] at ha₂
    simp only [Option.map_some', Option.some.injEq] at ha₂
    rw [← ha₂]
  · intro node hc hall
    obtain ⟨n, o, he, ha, _⟩ :=
      executeInstructionLoop_spec processorId node.instructions node.instructionCount hc
        (node.instructionCount.toNat + 1) 0 node [] rfl rfl (by omega) (by omega)
    simp only [List.drop_zero] at ha
    change applyWrites processorId (instructionStream node) node = some n at ha
    rw [applyWrites_no_write processorId _ node
      (fun i hi => by rw [hall i hi]; decide)] at ha
    simp only [Option.some.injEq] at ha
    subst ha
    exact ⟨o, he⟩

/-- Witness of C7: `R 0x09 9` inserted before the third write of the
scenario, and the stream of three READ instructions of `readOnlyNode`. -/
theorem executeInstruction_read_noop_witness :
    (scenarioNode.instructionCount ≤ (MAX_INSTR_NUM : Int) ∧
      scenarioNodeWithRead.instructionCount ≤ (MAX_INSTR_NUM : Int) ∧
      scenarioNodeWithRead.cache = scenarioNode.cache ∧
      instructionStream scenarioNode =
        [{ type := 'W'.toNat, address := 1, value := 10 },
          { type := 'W'.toNat, address := 2, value := 20 }] ++
        [{ type := 'W'.toNat, address := 3, value := 30 },
          { type := 'W'.toNat, address := 4, value := 40 },
          { type := 'W'.toNat, address := 5, value := 50 }] ∧
      ∃ (r₁ r₂ : processorNode × List Output),
        executeInstruction 0 scenarioNode = some r₁ ∧
        executeInstruction 0 scenarioNodeWithRead = some r₂ ∧
        r₂.1.cache = r₁.1.cache) ∧
    (readOnlyNode.instructionCount ≤ (MAX_INSTR_NUM : Int) ∧
      (∀ instr ∈ instructionStream readOnlyNode, instr.type = 'R'.toNat) ∧
      ∃ out : List Output, executeInstruction 0 readOnlyNode = some (readOnlyNode, out)) :=
  ⟨⟨by decide, by decide, rfl, by decide,
      (executeInstruction_read_noop 0).1 scenarioNode scenarioNodeWithRead
        [{ type := 'W'.toNat, address := 1, value := 10 },
          { type := 'W'.toNat, address := 2, value := 20 }]
        [{ type := 'W'.toNat, address := 3, value := 30 },
          { type := 'W'.toNat, address := 4, value := 40 },
          { type := 'W'.toNat, address := 5, value := 50 }]
        9 9 (by decide) (by decide) rfl (by decide) (by decide)⟩,
    ⟨by decide, by decide,
      (executeInstruction_read_noop 0).2 readOnlyNode (by decide) (by decide)⟩⟩

/-! ## Claim on initialisation -/

/-- C10: for a processor id in `0 .. 3` whose instruction file opens,
initialisation succeeds and leaves every cache line `(0xFF, 0, INVALID)`,
every directory entry `(0, U)` and, at every index `i` of local memory, the
value `20 * id + i`, which is below 256. -/
theorem initializeProcessor_postcondition (fopen : String → Option (List (List Char)))
    (sscanf : List Char → instruction → instruction)
    (threadId : Int) (node : processorNode) (dirName : String) (file : List (List Char))
    (hlo : 0 ≤ threadId) (hhi : threadId < (NUM_PROCS : Int))
    (hopen : fopen (instructionFileName dirName threadId) = some file) :
    ∃ node', initializeProcessor fopen sscanf threadId node dirName = Except.ok node' ∧
      (∀ i : Fin CACHE_SIZE, node'.cache i =
        { address := 0xFF, value := 0, state := cacheLineState.INVALID }) ∧
      (∀ i : Fin MEM_SIZE, node'.directory i =
        { bitVector := 0, state := directoryEntryState.U }) ∧
      (∀ i : Fin MEM_SIZE, ((node'.memory i : Nat) : Int) = 20 * threadId + (i.val : Int) ∧
        node'.memory i < 256) := by
  obtain ⟨node', h⟩ := initializeProcessor_opens fopen sscanf threadId node dirName file hopen
  obtain ⟨p1, p2, p3⟩ := initializeProcessor_post fopen sscanf threadId node dirName node' h
  refine ⟨node', h, p1, p2, fun i => ?_⟩
  have hi : i.val < 16 := i.isLt
  have hlt4 : threadId < 4 := by simpa using hhi
  rw [p3 i]
  have hmod : (20 * threadId + (i.val : Int)) % 256 = 20 * threadId + (i.val : Int) :=
    Int.emod_eq_of_lt (by omega) (by omega)
  rw [hmod]
  constructor
  · exact Int.toNat_of_nonneg (by omega)
  · have hlt : (20 * threadId + (i.val : Int)).toNat < 256 := by omega
    exact hlt

/-- Witness of C10: processor 3, an instruction file that opens and is empty. -/
theorem initializeProcessor_postcondition_witness :
    (0 : Int) ≤ 3 ∧ (3 : Int) < (NUM_PROCS : Int) ∧
    (fun _ => some []) (instructionFileName "suite" 3) = some ([] : List (List Char)) ∧
    ∃ node', initializeProcessor (fun _ => some []) (fun _ instr => instr) 3 emptyNode "suite" =
        Except.ok node' ∧
      (∀ i : Fin CACHE_SIZE, node'.cache i =
        { address := 0xFF, value := 0, state := cacheLineState.INVALID }) ∧
      (∀ i : Fin MEM_SIZE, node'.directory i =
        { bitVector := 0, state := directoryEntryState.U }) ∧
      (∀ i : Fin MEM_SIZE, ((node'.memory i : Nat) : Int) = 20 * 3 + (i.val : Int) ∧
        node'.memory i < 256) :=
  ⟨by decide, by decide, rfl,
    initializeProcessor_postcondition (fun _ => some []) (fun _ instr => instr) 3 emptyNode
      "suite" [] (by decide) (by decide) rfl⟩

/-! ## Claims on reachable caches -/

/-- C15: in a reachable node no two lines other than INVALID ones hold the
same address. -/
theorem reachable_tags_unique (node : processorNode) (h : Reachable node)
    (i j : Fin CACHE_SIZE) (hi : (node.cache i).state ≠ cacheLineState.INVALID)
    (hj : (node.cache j).state ≠ cacheLineState.INVALID)
    (hij : (node.cache i).address = (node.cache j).address) : i = j :=
  h.shape.unique i j hi hj hij

/-- Witness of C15: line 0 of `sentinelNode`, which holds `0xFF` and is MODIFIED. -/
theorem reachable_tags_unique_witness :
    Reachable sentinelNode ∧
    (sentinelNode.cache 0).state ≠ cacheLineState.INVALID ∧
    (sentinelNode.cache 0).address = (sentinelNode.cache 0).address ∧
    (0 : Fin CACHE_SIZE) = 0 :=
  ⟨sentinelNode_reachable, by decide, rfl,
    reachable_tags_unique sentinelNode sentinelNode_reachable 0 0 (by decide) (by decide) rfl⟩

/-- C18: in a reachable node every line is `(0xFF, 0, INVALID)` or MODIFIED,
none is EXCLUSIVE or SHARED, and every line after an INVALID line is INVALID;
and a write, to any node, succeeds, leaves no line INVALID that was not, does
not raise the number of INVALID lines, and keeps a cache without INVALID line
without INVALID line. -/
theorem reachable_shape :
    (∀ node : processorNode, Reachable node →
      (∀ i, node.cache i = { address := 0xFF, value := 0, state := cacheLineState.INVALID } ∨
        (node.cache i).state = cacheLineState.MODIFIED) ∧
      (∀ i, (node.cache i).state ≠ cacheLineState.EXCLUSIVE ∧
        (node.cache i).state ≠ cacheLineState.SHARED) ∧
      (∀ i j, i < j → (node.cache i).state = cacheLineState.INVALID →
        (node.cache j).state = cacheLineState.INVALID)) ∧
    (∀ (processorId : Int) (node : processorNode) (a v : byte),
      ∃ (node' : processorNode) (out : List Output),
        handleCacheWrite processorId node a v = some (node', out) ∧
        (∀ i, (node.cache i).state ≠ cacheLineState.INVALID →
          (node'.cache i).state ≠ cacheLineState.INVALID) ∧
        invalidCount node' ≤ invalidCount node ∧
        ((∀ i, (node.cache i).state ≠ cacheLineState.INVALID) →
          ∀ i, (node'.cache i).state ≠ cacheLineState.INVALID)) := by
  constructor
  · intro node hr
    have hs := hr.shape
    refine ⟨hs.line, fun i => ?_, hs.suffix⟩
    rcases hs.line i with hl | hl
    · rw [hl]; exact ⟨by decide, by decide⟩
    · rw [hl]; exact ⟨by decide, by decide⟩
  · intro processorId node a v
    obtain ⟨node', out, hw, _⟩ := handleCacheWrite_frame processorId node a v
    have hst := handleCacheWrite_state processorId node node' a v out hw
    refine ⟨node', out, hw, hst, ?_, fun hfull i => hst i (hfull i)⟩
    unfold invalidCount
    apply List.Sublist.length_le
    apply List.monotone_filter_right
    intro i hi
    simp only [decide_eq_true_eq] at hi ⊢
    by_contra hne
    exact hst i hne hi

/-- Witness of C18: the reachable node `sentinelNode`. -/
theorem reachable_shape_witness :
    Reachable sentinelNode ∧
    (∀ i, sentinelNode.cache i =
        { address := 0xFF, value := 0, state := cacheLineState.INVALID } ∨
      (sentinelNode.cache i).state = cacheLineState.MODIFIED) ∧
    (∀ i, (sentinelNode.cache i).state ≠ cacheLineState.EXCLUSIVE ∧
      (sentinelNode.cache i).state ≠ cacheLineState.SHARED) ∧
    (∀ i j, i < j → (sentinelNode.cache i).state = cacheLineState.INVALID →
      (sentinelNode.cache j).state = cacheLineState.INVALID) :=
  ⟨sentinelNode_reachable, reachable_shape.1 sentinelNode sentinelNode_reachable⟩

/-! ## Claims on the frame of the core and on the program -/

/-- C11: a write succeeds and leaves the memory, the directory, the
instruction array and `instructionCount` as they were; so does every
execution of the engine that returns, and the engine returns when
`instructionCount` fits the array; after a successful initialisation the
engine returns and every directory entry of its final node is `(0, U)`. -/
theorem core_frame :
    (∀ (processorId : Int) (node : processorNode) (a v : byte),
      ∃ (node' : processorNode) (out : List Output),
        handleCacheWrite processorId node a v = some (node', out) ∧
        node'.memory = node.memory ∧ node'.directory = node.directory ∧
        node'.instructions = node.instructions ∧
        node'.instructionCount = node.instructionCount) ∧
    (∀ (processorId : Int) (node : processorNode),
      node.instructionCount ≤ (MAX_INSTR_NUM : Int) →
      ∃ (node' : processorNode) (out : List Output),
        executeInstruction processorId node = some (node', out)) ∧
    (∀ (processorId : Int) (node node' : processorNode) (out : List Output),
      executeInstruction processorId node = some (node', out) →
      node'.memory = node.memory ∧ node'.directory = node.directory ∧
      node'.instructions = node.instructions ∧
      node'.instructionCount = node.instructionCount) ∧
    (∀ (fopen : String → Option (List (List Char)))
      (sscanf : List Char → instruction → instruction) (threadId : Int)
      (node₀ : processorNode) (dirName : String) (node : processorNode) (processorId : Int),
      initializeProcessor fopen sscanf threadId node₀ dirName = Except.ok node →
      ∃ (node' : processorNode) (out : List Output),
        executeInstruction processorId node = some (node', out) ∧
        ∀ i, node'.directory i = { bitVector := 0, state := directoryEntryState.U }) := by
  refine ⟨handleCacheWrite_frame, executeInstruction_returns, ?_, ?_⟩
  · intro processorId node node' out h
    exact executeInstructionLoop_frame processorId _ _ _ _ _ h
  · intro fopen sscanf threadId node₀ dirName node processorId hinit
    obtain ⟨node', out, he⟩ := executeInstruction_returns processorId node
      (initializeProcessor_count fopen sscanf threadId node₀ dirName node hinit)
    refine ⟨node', out, he, fun i => ?_⟩
    rw [(executeInstructionLoop_frame processorId _ _ _ _ _ he).2.1]
    exact (initializeProcessor_post fopen sscanf threadId node₀ dirName node hinit).2.1 i

/-- Witness of C11: the engine on `scenarioNode`, on `readOnlyNode`, and after
the initialisation that gives `bootNode`. -/
theorem core_frame_witness :
    (scenarioNode.instructionCount ≤ (MAX_INSTR_NUM : Int) ∧
      ∃ (node' : processorNode) (out : List Output),
        executeInstruction 0 scenarioNode = some (node', out)) ∧
    (executeInstruction 0 readOnlyNode = some (readOnlyNode, []) ∧
      readOnlyNode.memory = readOnlyNode.memory ∧
      readOnlyNode.directory = readOnlyNode.directory ∧
      readOnlyNode.instructions = readOnlyNode.instructions ∧
      readOnlyNode.instructionCount = readOnlyNode.instructionCount) ∧
    (initializeProcessor (fun _ => some []) (fun _ instr => instr) 0 emptyNode "suite" =
        Except.ok bootNode ∧
      ∃ (node' : processorNode) (out : List Output),
        executeInstruction 0 bootNode = some (node', out) ∧
        ∀ i, node'.directory i = { bitVector := 0, state := directoryEntryState.U }) :=
  ⟨⟨by decide, core_frame.2.1 0 scenarioNode (by decide)⟩,
    ⟨rfl, core_frame.2.2.1 0 readOnlyNode readOnlyNode [] rfl⟩,
    ⟨rfl, core_frame.2.2.2 (fun _ => some []) (fun _ instr => instr) 0 emptyNode "suite"
      bootNode 0 rfl⟩⟩

/-- C12: for four nodes whose `instructionCount` fits the array, the
executions of the processors in any order return and give the same four
final nodes as in the order 0, 1, 2, 3, the final node of each processor
being the one that the engine gives from its own node; the execution of one
processor changes no other node; and the executions of two different
processors give the same nodes in either order. -/
theorem executeAll_order_independent (processors : Fin NUM_PROCS → processorNode)
    (hcount : ∀ i, (processors i).instructionCount ≤ (MAX_INSTR_NUM : Int)) :
    (∀ order : List (Fin NUM_PROCS), order.Perm (List.finRange NUM_PROCS) →
      ∃ (final : Fin NUM_PROCS → processorNode) (out₁ out₂ : List Output),
        executeAll order processors [] = some (final, out₁) ∧
        executeAll (List.finRange NUM_PROCS) processors [] = some (final, out₂) ∧
        ∀ i, ∃ o, executeInstruction (i.val : Int) (processors i) = some (final i, o)) ∧
    (∀ i : Fin NUM_PROCS,
      ∃ (final : Fin NUM_PROCS → processorNode) (out : List Output),
        executeAll [i] processors [] = some (final, out) ∧
        ∀ k, k ≠ i → final k = processors k) ∧
    (∀ i j : Fin NUM_PROCS, i ≠ j →
      ∃ (final : Fin NUM_PROCS → processorNode) (out₁ out₂ : List Output),
        executeAll [i, j] processors [] = some (final, out₁) ∧
        executeAll [j, i] processors [] = some (final, out₂)) := by
  -- two runs over lists with the same processors end in the same nodes
  have same : ∀ l₁ l₂ : List (Fin NUM_PROCS), l₁.Nodup → l₂.Nodup →
      (∀ i, i ∈ l₁ ↔ i ∈ l₂) →
      ∃ (final : Fin NUM_PROCS → processorNode) (out₁ out₂ : List Output),
        executeAll l₁ processors [] = some (final, out₁) ∧
        executeAll l₂ processors [] = some (final, out₂) ∧
        (∀ i, i ∈ l₁ → ∃ o, executeInstruction (i.val : Int) (processors i) =
          some (final i, o)) := by
    intro l₁ l₂ hn₁ hn₂ hmem
    obtain ⟨f₁, o₁, e₁, a₁, b₁⟩ := executeAll_spec l₁ hn₁ processors [] hcount
    obtain ⟨f₂, o₂, e₂, a₂, b₂⟩ := executeAll_spec l₂ hn₂ processors [] hcount
    have hf : f₂ = f₁ := by
      funext i
      by_cases hi : i ∈ l₁
      · obtain ⟨x, hx⟩ := a₁ i hi
        obtain ⟨y, hy⟩ := a₂ i ((hmem i).1 hi)
        rw [hx] at hy
        simp only [Option.some.injEq, Prod.mk.injEq] at hy
        exact hy.1.symm
      · rw [b₁ i hi, b₂ i (fun h => hi ((hmem i).2 h))]
    rw [hf] at e₂
    exact ⟨f₁, o₁, o₂, e₁, e₂, a₁⟩
  refine ⟨?_, ?_, ?_⟩
  · intro order hperm
    obtain ⟨final, o₁, o₂, e₁, e₂, a⟩ := same order (List.finRange NUM_PROCS)
      (hperm.nodup_iff.2 (List.nodup_finRange _)) (List.nodup_finRange _)
      (fun i => hperm.mem_iff)
    exact ⟨final, o₁, o₂, e₁, e₂, fun i => a i (hperm.mem_iff.2 (List.mem_finRange i))⟩
  · intro i
    obtain ⟨final, out, e, _, b⟩ :=
      executeAll_spec [i] (List.nodup_singleton i) processors [] hcount
    exact ⟨final, out, e, fun k hk => b k (by simpa using hk)⟩
  · intro i j hij
    obtain ⟨final, o₁, o₂, e₁, e₂, _⟩ := same [i, j] [j, i]
      (by simpa using hij) (by simpa using hij.symm)
      (fun k => by simp only [List.mem_cons, List.mem_singleton, List.not_mem_nil, or_false]
                   exact or_comm)
    exact ⟨final, o₁, o₂, e₁, e₂⟩

/-- Witness of C12: `sampleProcessors`, run in the order 2, 0, 3, 1. -/
theorem executeAll_order_independent_witness :
    (∀ i, (sampleProcessors i).instructionCount ≤ (MAX_INSTR_NUM : Int)) ∧
    ([2, 0, 3, 1] : List (Fin NUM_PROCS)).Perm (List.finRange NUM_PROCS) ∧
    ∃ (final : Fin NUM_PROCS → processorNode) (out₁ out₂ : List Output),
      executeAll [2, 0, 3, 1] sampleProcessors [] = some (final, out₁) ∧
      executeAll (List.finRange NUM_PROCS) sampleProcessors [] = some (final, out₂) ∧
      ∀ i, ∃ o, executeInstruction (i.val : Int) (sampleProcessors i) = some (final i, o) :=
  ⟨by decide, by decide,
    (executeAll_order_independent sampleProcessors (by decide)).1 [2, 0, 3, 1] (by decide)⟩

/-- C13: with a directory argument on the command line, when the instruction
file of one of the four processors does not open the program ends with the
status `EXIT_FAILURE`, which is not 0, and has written nothing to standard
output; when the four files open it ends with status 0. -/
theorem main_fatal_on_missing_file (fopen : String → Option (List (List Char)))
    (sscanf : List Char → instruction → instruction)
    (prog testDir : String) (rest : List String)
    (processors : Fin NUM_PROCS → processorNode) :
    ((∃ i : Fin NUM_PROCS, fopen (instructionFileName testDir (i.val : Int)) = none) →
      main fopen sscanf (prog :: testDir :: rest) processors = some (EXIT_FAILURE, []) ∧
      EXIT_FAILURE ≠ 0) ∧
    ((∀ i : Fin NUM_PROCS, ∃ file,
        fopen (instructionFileName testDir (i.val : Int)) = some file) →
      ∃ out : List Output,
        main fopen sscanf (prog :: testDir :: rest) processors = some (0, out)) := by
  constructor
  · rintro ⟨i, hi⟩
    refine ⟨?_, by decide⟩
    unfold main
    simp only
    rw [initializeAll_fails fopen sscanf testDir (List.finRange NUM_PROCS) processors
      ⟨i, List.mem_finRange i, hi⟩]
  · intro hall
    obtain ⟨processors', h1, h2, _⟩ :=
      initializeAll_succeeds fopen sscanf testDir (List.finRange NUM_PROCS) processors
        (fun i _ => hall i)
    obtain ⟨final, out, he, _⟩ :=
      executeAll_spec (List.finRange NUM_PROCS) (List.nodup_finRange _) processors' []
        (fun i => h2 i (List.mem_finRange i))
    unfold main
    simp only
    rw [h1]
    simp only
    rw [he]
    exact ⟨_, rfl⟩

/-- Witness of C13: no file opens in the first run, and every file opens and
is empty in the second. -/
theorem main_fatal_on_missing_file_witness :
    ((∃ i : Fin NUM_PROCS,
        (fun _ => none : String → Option (List (List Char)))
          (instructionFileName "suite" (i.val : Int)) = none) ∧
      main (fun _ => none) (fun _ instr => instr) ["prog", "suite"] sampleProcessors =
        some (EXIT_FAILURE, []) ∧
      EXIT_FAILURE ≠ 0) ∧
    ((∀ i : Fin NUM_PROCS, ∃ file,
        (fun _ => some [] : String → Option (List (List Char)))
          (instructionFileName "suite" (i.val : Int)) = some file) ∧
      ∃ out : List Output,
        main (fun _ => some []) (fun _ instr => instr) ["prog", "suite"] sampleProcessors =
          some (0, out)) :=
  ⟨⟨⟨0, rfl⟩,
      (main_fatal_on_missing_file (fun _ => none) (fun _ instr => instr) "prog" "suite" []
        sampleProcessors).1 ⟨0, rfl⟩⟩,
    ⟨fun _ => ⟨[], rfl⟩,
      (main_fatal_on_missing_file (fun _ => some []) (fun _ instr => instr) "prog" "suite" []
        sampleProcessors).2 (fun _ => ⟨[], rfl⟩)⟩⟩

/-! ## Claims that the code does not meet as they are written -/

/-- C14, the code at the failing input: in the reachable node `bootNode`,
where every line is INVALID and so no address is resident, the lookup of the
sentinel address `0xFF` returns index 0 and the write of 7 to `0xFF` takes
the hit branch, reporting a hit at index 0. -/
theorem sentinel_write_reports_hit :
    Reachable bootNode ∧
    (∀ i, (bootNode.cache i).state = cacheLineState.INVALID) ∧
    (findCacheLineIndex bootNode 0xFF).2 = 0 ∧
    (handleCacheWrite 0 bootNode 0xFF 7).map Prod.snd = some [Output.cacheHit 0 0 7] :=
  ⟨bootNode_reachable, by decide, by decide, by decide⟩

/-- C16 as written fails: from the node initialised with the instruction
`W 20 1`, the execution leaves in line 0, which is not INVALID, the address
`0x20`, which is not below `MEM_SIZE`. -/
theorem cached_address_beyond_memory :
    initializeProcessor (fun _ => some [['W', ' ', '2', '0', ' ', '1']])
      (fun _ _ => { type := 'W'.toNat, address := 0x20, value := 1 }) 0 emptyNode "suite" =
      Except.ok farNode ∧
    ∃ (node' : processorNode) (out : List Output),
      executeInstruction 0 farNode = some (node', out) ∧
      ¬ (∀ i, (node'.cache i).state ≠ cacheLineState.INVALID →
          (node'.cache i).address < MEM_SIZE) := by
  refine ⟨farNode_initialised, ?_⟩
  obtain ⟨node', out, he⟩ := executeInstruction_returns 0 farNode (by decide)
  refine ⟨node', out, he, ?_⟩
  have hline : (executeInstruction 0 farNode).map (fun r => r.1.cache 0) =
      some { address := 0x20, value := 1, state := cacheLineState.MODIFIED } := by decide
  rw [he] at hline
  simp only [Option.map_some', Option.some.injEq] at hline
  intro hall
  have := hall 0 (by rw [hline]; decide)
  rw [hline] at this
  exact absurd this (by decide)

/-- C16 as amended: after a successful initialisation the execution returns,
and every line of its final node that is not INVALID holds the address of a
WRITE instruction of the stream; that address is a byte, below 256, when the
addresses of the stream are. -/
theorem cached_address_is_written (fopen : String → Option (List (List Char)))
    (sscanf : List Char → instruction → instruction) (threadId : Int)
    (node₀ : processorNode) (dirName : String) (node : processorNode) (processorId : Int)
    (hinit : initializeProcessor fopen sscanf threadId node₀ dirName = Except.ok node) :
    ∃ (node' : processorNode) (out : List Output),
      executeInstruction processorId node = some (node', out) ∧
      (∀ i, (node'.cache i).state ≠ cacheLineState.INVALID →
        ∃ instr ∈ instructionStream node,
          instr.type = 'W'.toNat ∧ (node'.cache i).address = instr.address) ∧
      ((∀ instr ∈ instructionStream node, instr.address < 256) →
        ∀ i, (node'.cache i).state ≠ cacheLineState.INVALID →
          (node'.cache i).address < 256) := by
  obtain ⟨node', out, he, ha⟩ := executeInstruction_applyWrites processorId node
    (initializeProcessor_count fopen sscanf threadId node₀ dirName node hinit)
  have hinitial := (initializeProcessor_post fopen sscanf threadId node₀ dirName node hinit).1
  have key : ∀ i, (node'.cache i).state ≠ cacheLineState.INVALID →
      ∃ instr ∈ instructionStream node,
        instr.type = 'W'.toNat ∧ (node'.cache i).address = instr.address := by
    intro i hi
    rcases applyWrites_lines processorId _ node node' ha i with h1 | h2
    · rw [h1, hinitial i] at hi
      exact absurd rfl hi
    · exact h2
  refine ⟨node', out, he, key, ?_⟩
  intro hbyte i hi
  obtain ⟨instr, hin, _, haddr⟩ := key i hi
  rw [haddr]
  exact hbyte instr hin

/-- Witness of C16 as amended: the initialisation that gives `farNode`. -/
theorem cached_address_is_written_witness :
    initializeProcessor (fun _ => some [['W', ' ', '2', '0', ' ', '1']])
      (fun _ _ => { type := 'W'.toNat, address := 0x20, value := 1 }) 0 emptyNode "suite" =
      Except.ok farNode ∧
    ∃ (node' : processorNode) (out : List Output),
      executeInstruction 0 farNode = some (node', out) ∧
      (∀ i, (node'.cache i).state ≠ cacheLineState.INVALID →
        ∃ instr ∈ instructionStream farNode,
          instr.type = 'W'.toNat ∧ (node'.cache i).address = instr.address) ∧
      ((∀ instr ∈ instructionStream farNode, instr.address < 256) →
        ∀ i, (node'.cache i).state ≠ cacheLineState.INVALID →
          (node'.cache i).address < 256) :=
  ⟨rfl, cached_address_is_written (fun _ => some [['W', ' ', '2', '0', ' ', '1']])
    (fun _ _ => { type := 'W'.toNat, address := 0x20, value := 1 }) 0 emptyNode "suite"
    farNode 0 rfl⟩

/-- C17 as written fails: the five writes of the scenario, from the empty
cache, fill the lines 0, 1, 2, 3 and then replace line 0, and lead to the
cache of the reachable node `evictedOnceNode`, which has no INVALID line;
there line 0 is the line filled last (age 0) and line 1 the line filled
earliest (age 3), so line 0 is not the oldest line; the write of 60 to
address 6 misses and replaces line 0, the lines 1, 2 and 3 staying; and the
engine on the stream of the six writes reports the replacements of the lines
0, 1, 2, 3, 0, 0. -/
theorem sixth_write_replaces_newest_line :
    Reachable evictedOnceNode ∧
    (executeInstruction 0 scenarioNode).map
        (fun r => (replacedLines r.2, (List.finRange CACHE_SIZE).map r.1.cache)) =
      some ([0, 1, 2, 3, 0], (List.finRange CACHE_SIZE).map evictedOnceNode.cache) ∧
    (∀ i, (evictedOnceNode.cache i).state ≠ cacheLineState.INVALID) ∧
    (findCacheLineIndex evictedOnceNode 6).2 = -1 ∧
    fillAge [0, 1, 2, 3, 0] 0 = 0 ∧
    fillAge [0, 1, 2, 3, 0] 1 = 3 ∧
    ¬ (∀ j : Fin CACHE_SIZE,
        fillAge [0, 1, 2, 3, 0] (j.val : Int) ≤ fillAge [0, 1, 2, 3, 0] 0) ∧
    (handleCacheWrite 0 evictedOnceNode 6 60).map
        (fun r => (r.2, (List.finRange CACHE_SIZE).map r.1.cache)) =
      some ([Output.cacheMiss 0 0 6 60],
        [{ address := 6, value := 60, state := cacheLineState.MODIFIED },
          { address := 2, value := 20, state := cacheLineState.MODIFIED },
          { address := 3, value := 30, state := cacheLineState.MODIFIED },
          { address := 4, value := 40, state := cacheLineState.MODIFIED }]) ∧
    (executeInstruction 0 sixWritesNode).map (fun r => replacedLines r.2) =
      some [0, 1, 2, 3, 0, 0] :=
  ⟨evictedOnceNode_reachable, by decide, by decide, by decide, by decide, by decide,
    by decide, by decide, by decide⟩

/-- C17 as amended: in every node without INVALID line, so after any
sequence of writes from the initialised cache that has filled it, a write
that misses succeeds, reports the replacement of line 0, makes line 0 equal
to `(a, v, MODIFIED)` and leaves the lines 1, 2 and 3 as they were, whatever
the order in which the four lines were filled. -/
theorem full_miss_replaces_line_zero (node : processorNode)
    (hfull : ∀ i, (node.cache i).state ≠ cacheLineState.INVALID)
    (processorId : Int) (a v : byte) (hmiss : (findCacheLineIndex node a).2 = -1) :
    ∃ node' : processorNode,
      handleCacheWrite processorId node a v =
        some (node', [Output.cacheMiss processorId 0 a v]) ∧
      node'.cache 0 = { address := a, value := v, state := cacheLineState.MODIFIED } ∧
      ∀ j : Fin CACHE_SIZE, j ≠ 0 → node'.cache j = node.cache j := by
  have hstep := handleCacheWrite_miss_at_zero processorId node a v
    ((findCacheLineIndex_eq_neg_one node a).1 hmiss) hfull
  refine ⟨_, hstep, by simp, fun j hj => ?_⟩
  simp [Function.update_noteq hj]

/-- Witness of C17 as amended: the write of 60 to address 6 in
`evictedOnceNode`, where line 0 is the line filled last. -/
theorem full_miss_replaces_line_zero_witness :
    Reachable evictedOnceNode ∧
    (∀ i, (evictedOnceNode.cache i).state ≠ cacheLineState.INVALID) ∧
    (findCacheLineIndex evictedOnceNode 6).2 = -1 ∧
    ∃ node' : processorNode,
      handleCacheWrite 0 evictedOnceNode 6 60 = some (node', [Output.cacheMiss 0 0 6 60]) ∧
      node'.cache 0 = { address := 6, value := 60, state := cacheLineState.MODIFIED } ∧
      ∀ j : Fin CACHE_SIZE, j ≠ 0 → node'.cache j = evictedOnceNode.cache j :=
  ⟨evictedOnceNode_reachable, by decide, by decide,
    full_miss_replaces_line_zero evictedOnceNode (by decide) 0 6 60 (by decide)⟩

/-- C20 as written fails: in the reachable node `twoLinesNode`, whose line 1
is not INVALID, the later write of 30 to address 3 succeeds, changes no line
that is not INVALID (so it updates the value of no resident line), leaves
line 0 as it was, and yet changes line 2. -/
theorem later_write_fills_empty_line :
    Reachable twoLinesNode ∧
    (twoLinesNode.cache 1).state ≠ cacheLineState.INVALID ∧
    ∃ (node' : processorNode) (out : List Output),
      handleCacheWrite 0 twoLinesNode 3 30 = some (node', out) ∧
      (∀ j, (twoLinesNode.cache j).state ≠ cacheLineState.INVALID →
        node'.cache j = twoLinesNode.cache j) ∧
      node'.cache 0 = twoLinesNode.cache 0 ∧
      node'.cache 2 ≠ twoLinesNode.cache 2 :=
  ⟨twoLinesNode_reachable, by decide, threeLinesNode, [Output.cacheMiss 0 2 3 30],
    threeLinesNode_write, by decide, by decide, by decide⟩

/-- C20 as amended: along a sequence of writes, a line at an index other than
0 that is not INVALID keeps its address and stays not INVALID; and a write to
a reachable node succeeds and either sets the value of a line that is not
INVALID and holds the address, or fills the lowest INVALID line, or, when no
line is INVALID and none holds the address, replaces line 0, every other line
being unchanged. -/
theorem nonzero_lines_keep_address :
    (∀ (node node' : processorNode) (k : Fin CACHE_SIZE), WritesTo node node' → k ≠ 0 →
      (node.cache k).state ≠ cacheLineState.INVALID →
      (node'.cache k).address = (node.cache k).address ∧
      (node'.cache k).state ≠ cacheLineState.INVALID) ∧
    (∀ (node : processorNode), Reachable node → ∀ (processorId : Int) (a v : byte),
      ∃ (node' : processorNode) (out : List Output),
        handleCacheWrite processorId node a v = some (node', out) ∧
        ((∃ j, (node.cache j).state ≠ cacheLineState.INVALID ∧ (node.cache j).address = a ∧
            node'.cache = Function.update node.cache j
              { node.cache j with value := v, state := cacheLineState.MODIFIED }) ∨
         (∃ j, (node.cache j).state = cacheLineState.INVALID ∧
            (∀ i, i < j → (node.cache i).state ≠ cacheLineState.INVALID) ∧
            node'.cache = Function.update node.cache j
              { address := a, value := v, state := cacheLineState.MODIFIED }) ∨
         ((∀ j, (node.cache j).state ≠ cacheLineState.INVALID) ∧
            (∀ j, (node.cache j).address ≠ a) ∧
            node'.cache = Function.update node.cache 0
              { address := a, value := v, state := cacheLineState.MODIFIED }))) := by
  constructor
  · intro node node' k hw hk0 hk
    induction hw with
    | refl => exact ⟨rfl, hk⟩
    | step processorId mid node' a v out _ hstep ih =>
      obtain ⟨ih1, ih2⟩ := ih
      obtain ⟨k', hnode, hc⟩ := handleCacheWrite_some processorId mid node' a v out hstep
      subst hnode
      by_cases hkk : k = k'
      · subst hkk
        rcases hc with ⟨h1, _, _⟩ | ⟨_, h2, _⟩
        · simp only [Function.update_same]
          exact ⟨by rw [← ih1, h1], by decide⟩
        · rcases h2 with ⟨hi, _⟩ | ⟨_, h0⟩
          · exact absurd hi ih2
          · exact absurd h0 hk0
      · simp only [Function.update_noteq hkk]
        exact ⟨ih1, ih2⟩
  · intro node hr processorId a v
    have hs := hr.shape
    obtain ⟨k, hc⟩ := handleCacheWrite_cases processorId node a v
    rcases hc with ⟨h1, h2, h3⟩ | ⟨h1, h2, h3⟩
    · refine ⟨_, _, h3, ?_⟩
      by_cases hk : (node.cache k).state = cacheLineState.INVALID
      · right; left
        refine ⟨k, hk, ?_, rfl⟩
        intro i hi hinv
        exact h2 i hi (by rw [hs.sentinel i hinv, ← h1, hs.sentinel k hk])
      · left
        exact ⟨k, hk, h1, by simp only [h1]⟩
    · refine ⟨_, _, h3, ?_⟩
      rcases h2 with ⟨hi, hl⟩ | ⟨hfull, h0⟩
      · right; left
        exact ⟨k, hi, hl, rfl⟩
      · right; right
        subst h0
        exact ⟨hfull, h1, rfl⟩

/-- Witness of C20 as amended: line 1 of `twoLinesNode` along the write that
gives `threeLinesNode`, and a write to the reachable node `twoLinesNode`. -/
theorem nonzero_lines_keep_address_witness :
    (WritesTo twoLinesNode threeLinesNode ∧ (1 : Fin CACHE_SIZE) ≠ 0 ∧
      (twoLinesNode.cache 1).state ≠ cacheLineState.INVALID ∧
      (threeLinesNode.cache 1).address = (twoLinesNode.cache 1).address ∧
      (threeLinesNode.cache 1).state ≠ cacheLineState.INVALID) ∧
    (Reachable twoLinesNode ∧
      ∃ (node' : processorNode) (out : List Output),
        handleCacheWrite 0 twoLinesNode 3 30 = some (node', out) ∧
        ((∃ j, (twoLinesNode.cache j).state ≠ cacheLineState.INVALID ∧
            (twoLinesNode.cache j).address = 3 ∧
            node'.cache = Function.update twoLinesNode.cache j
              { twoLinesNode.cache j with value := 30, state := cacheLineState.MODIFIED }) ∨
         (∃ j, (twoLinesNode.cache j).state = cacheLineState.INVALID ∧
            (∀ i, i < j → (twoLinesNode.cache i).state ≠ cacheLineState.INVALID) ∧
            node'.cache = Function.update twoLinesNode.cache j
              { address := 3, value := 30, state := cacheLineState.MODIFIED }) ∨
         ((∀ j, (twoLinesNode.cache j).state ≠ cacheLineState.INVALID) ∧
            (∀ j, (twoLinesNode.cache j).address ≠ 3) ∧
            node'.cache = Function.update twoLinesNode.cache 0
              { address := 3, value := 30, state := cacheLineState.MODIFIED }))) :=
  ⟨⟨WritesTo.step 0 twoLinesNode threeLinesNode 3 30 [Output.cacheMiss 0 2 3 30]
        WritesTo.refl threeLinesNode_write,
      by decide, by decide,
      nonzero_lines_keep_address.1 twoLinesNode threeLinesNode 1
        (WritesTo.step 0 twoLinesNode threeLinesNode 3 30
          [Output.cacheMiss 0 2 3 30] WritesTo.refl threeLinesNode_write)
        (by decide) (by decide)⟩,
    ⟨twoLinesNode_reachable,
      nonzero_lines_keep_address.2 twoLinesNode twoLinesNode_reachable 0 3 30⟩⟩

/-! ## Claim on the occupancy of the cache -/

/-- C19: after a successful initialisation the execution returns; the number
of lines of its final node that are not INVALID is the smaller of 4 and the
number of distinct addresses among the WRITE instructions of the stream; and
when that number is at most 4, the address of every WRITE instruction is
held by a line that is not INVALID, with the value of the last WRITE to it. -/
theorem executeInstruction_occupancy (fopen : String → Option (List (List Char)))
    (sscanf : List Char → instruction → instruction) (threadId : Int)
    (node₀ : processorNode) (dirName : String) (node : processorNode) (processorId : Int)
    (hinit : initializeProcessor fopen sscanf threadId node₀ dirName = Except.ok node) :
    ∃ (node' : processorNode) (out : List Output),
      executeInstruction processorId node = some (node', out) ∧
      residentCount node' = min 4 (distinctWrites (instructionStream node)) ∧
      (distinctWrites (instructionStream node) ≤ 4 →
        ∀ instr ∈ instructionStream node, instr.type = 'W'.toNat →
          ∃ i, (node'.cache i).state ≠ cacheLineState.INVALID ∧
            (node'.cache i).address = instr.address ∧
            lastWrittenValue (instructionStream node) instr.address =
              some (node'.cache i).value) := by
  obtain ⟨node', out, he, ha⟩ := executeInstruction_applyWrites processorId node
    (initializeProcessor_count fopen sscanf threadId node₀ dirName node hinit)
  have hocc := applyWrites_occupancy processorId node
    (Reachable.init fopen sscanf threadId node₀ dirName node hinit).shape
    (initializeProcessor_post fopen sscanf threadId node₀ dirName node hinit).1
    (instructionStream node) node' ha
  refine ⟨node', out, he, hocc.count, ?_⟩
  intro hd instr hin hw
  have hmem : instr.address ∈ writtenAddresses (instructionStream node) := by
    unfold writtenAddresses
    exact List.mem_map.2 ⟨instr, List.mem_filter.2 ⟨hin, by simpa using hw⟩, rfl⟩
  obtain ⟨i, hi, hia⟩ := (hocc.resident hd instr.address).1 hmem
  refine ⟨i, hi, hia, ?_⟩
  rw [← hia]
  exact hocc.values hd i hi

/-- Witness of C19: the initialisation that gives `revisitNode`, whose stream
writes to the addresses 1, 3 and 1 again. -/
theorem executeInstruction_occupancy_witness :
    initializeProcessor
      (fun _ => some [['W', ' ', '1', ' ', '5'], ['R', ' ', '2', ' ', '0'],
        ['W', ' ', '3', ' ', '7'], ['W', ' ', '1', ' ', '9']])
      digitScan 1 emptyNode "suite" = Except.ok revisitNode ∧
    ∃ (node' : processorNode) (out : List Output),
      executeInstruction 1 revisitNode = some (node', out) ∧
      residentCount node' = min 4 (distinctWrites (instructionStream revisitNode)) ∧
      (distinctWrites (instructionStream revisitNode) ≤ 4 →
        ∀ instr ∈ instructionStream revisitNode, instr.type = 'W'.toNat →
          ∃ i, (node'.cache i).state ≠ cacheLineState.INVALID ∧
            (node'.cache i).address = instr.address ∧
            lastWrittenValue (instructionStream revisitNode) instr.address =
              some (node'.cache i).value) :=
  ⟨rfl, executeInstruction_occupancy
    (fun _ => some [['W', ' ', '1', ' ', '5'], ['R', ' ', '2', ' ', '0'],
      ['W', ' ', '3', ' ', '7'], ['W', ' ', '1', ' ', '9']])
    digitScan 1 emptyNode "suite" revisitNode 1 rfl⟩

end Assignment
